import Mathlib

/-! Token manager and chunked transfer of `owncloud/revaold`.

A shallow embedding of

* `api/token_manager_jwt/token_manager_jwt.go`: `ForgeUserToken`, `DismantleUserToken`,
  `ForgePublicLinkToken`, `DismantlePublicLinkToken`;
* `reva-cli/cmds/storagecmd/storagecmd.go`: `upload`, `download` and `downloadRevision`.

The JWT library the token manager calls (`github.com/dgrijalva/jwt-go`, v3) and Go's
`encoding/json` are not part of the repository. They are modelled here as far as the
token manager uses them: the keyed hash and the RSA check are parameters (`JwtLib`), a
compact token is kept as its three decoded segments, and a claim set is the key/value
list the parser hands back (`MapClaims`). A Go string is a byte sequence (`GoString`), so
that it can hold bytes that are not UTF-8; a call can end in a value, an error or a panic
(`GoResult`).
-/

namespace Reva

/-! ## Go strings and results -/

/-- A Go string: a sequence of bytes, not necessarily well-formed UTF-8. -/
abbrev GoString := List UInt8

/-- The bytes of a string literal. -/
def utf8 (s : String) : GoString := (s.toList.map String.utf8EncodeChar).flatten

/-- A continuation byte, `80` to `BF`. -/
def isCont (b : UInt8) : Bool := 0x80 ≤ b && b ≤ 0xBF

/-- The width of the well-formed UTF-8 sequence at the head of the bytes, as
`utf8.DecodeRuneInString` accepts it (no overlong form, no surrogate, nothing above
U+10FFFF); `0` when the first byte does not start one. -/
def runeWidth : List UInt8 → Nat
  | [] => 0
  | b0 :: rest =>
    if b0 < 0x80 then 1
    else if 0xC2 ≤ b0 && b0 ≤ 0xDF then
      match rest with
      | b1 :: _ => if isCont b1 then 2 else 0
      | _ => 0
    else if 0xE0 ≤ b0 && b0 ≤ 0xEF then
      match rest with
      | b1 :: b2 :: _ =>
        if (if b0 = 0xE0 then 0xA0 ≤ b1 && b1 ≤ 0xBF
            else if b0 = 0xED then 0x80 ≤ b1 && b1 ≤ 0x9F
            else isCont b1) && isCont b2 then 3 else 0
      | _ => 0
    else if 0xF0 ≤ b0 && b0 ≤ 0xF4 then
      match rest with
      | b1 :: b2 :: b3 :: _ =>
        if (if b0 = 0xF0 then 0x90 ≤ b1 && b1 ≤ 0xBF
            else if b0 = 0xF4 then 0x80 ≤ b1 && b1 ≤ 0x8F
            else isCont b1) && isCont b2 && isCont b3 then 4 else 0
      | _ => 0
    else 0

/-- A Go string through `json.Marshal` and back through the decoder, from a position that
is `skip` bytes before the end of a well-formed sequence: the encoder writes every byte
that does not start a well-formed sequence as U+FFFD (`EF BF BD`) and keeps all other
bytes. -/
def jsonStringFrom : Nat → List UInt8 → List UInt8
  | _, [] => []
  | 0, b :: rest =>
    if runeWidth (b :: rest) = 0 then 0xEF :: 0xBF :: 0xBD :: jsonStringFrom 0 rest
    else b :: jsonStringFrom (runeWidth (b :: rest) - 1) rest
  | skip + 1, b :: rest => b :: jsonStringFrom skip rest

/-- A Go string through `json.Marshal` and back through the decoder. -/
def jsonString (s : GoString) : GoString := jsonStringFrom 0 s

/-- Whether the bytes are well-formed UTF-8 from a position that is `skip` bytes before the
end of a well-formed sequence. -/
def utf8ValidFrom : Nat → List UInt8 → Bool
  | _, [] => true
  | 0, b :: rest =>
    runeWidth (b :: rest) != 0 && utf8ValidFrom (runeWidth (b :: rest) - 1) rest
  | skip + 1, _ :: rest => utf8ValidFrom skip rest

/-- The test `utf8.ValidString`. -/
def utf8Valid (s : GoString) : Bool := utf8ValidFrom 0 s

/-- The outcome of a Go call that returns a value and an error: a value with a nil error,
an error, or a panic that unwinds the call. -/
inductive GoResult (α : Type) where
  | ok (a : α)
  | error (e : String)
  | panicked (e : String)
  deriving DecidableEq, Repr

/-! ## JSON values and Go values -/

/-- A JSON value as `encoding/json` decodes it into an `interface{}`: numbers become
`float64` (every finite `float64` is a rational), arrays become `[]interface{}` and objects
become `map[string]interface{}`. -/
inductive JVal where
  | null
  | bool (b : Bool)
  | num (x : ℚ)
  | str (s : GoString)
  | arr (xs : List JVal)
  | obj (kvs : List (String × JVal))

/-- The claim map `jwt.MapClaims` (`map[string]interface{}`) as a key/value list; `m[k]` is
`m.lookup k`, and a missing key is the nil interface. -/
abbrev MapClaims := List (String × JVal)

/-- The Go values the token manager stores in a claim map before signing. A `[]string` is
`none` when it is the nil slice. A `time.Time` is kept as its Unix second. -/
inductive GoVal where
  | string (s : GoString)
  | bool (b : Bool)
  | uint64 (n : Nat)
  | int32 (i : Int)
  | strings (xs : Option (List GoString))
  | time (t : Int)

/-- The `float64` nearest to the natural number `n` (round half to even on a 53 bit
significand), which is what decoding the decimal rendering of a `uint64` yields. -/
def f64OfNat (n : Nat) : Nat :=
  let e := Nat.log2 n + 1 - 53
  let q := n / 2 ^ e
  let r := n % 2 ^ e
  let q' := if 2 ^ e < 2 * r ∨ (2 * r = 2 ^ e ∧ q % 2 = 1) then q + 1 else q
  q' * 2 ^ e

/-- Go leaves the result of a floating-point to integer conversion to the implementation
when the value does not fit the target type; these are the implementation's results. -/
structure Arch where
  f64ToUint64 : ℚ → Nat
  f64ToInt64 : ℚ → Int
  f64ToInt32 : ℚ → Int

/-- Discard the fraction (truncation towards zero). -/
def truncQ (x : ℚ) : Int := Int.tdiv x.num (x.den : Int)

/-- The Go conversion `uint64(x)` of a `float64`. -/
def toUint64 (a : Arch) (x : ℚ) : Nat :=
  if 0 ≤ truncQ x ∧ truncQ x < 2 ^ 64 then (truncQ x).toNat else a.f64ToUint64 x % 2 ^ 64

/-- The Go conversion `int64(x)` of a `float64`. -/
def toInt64 (a : Arch) (x : ℚ) : Int :=
  if -(2 ^ 63) ≤ truncQ x ∧ truncQ x < 2 ^ 63 then truncQ x
  else (a.f64ToInt64 x + 2 ^ 63) % 2 ^ 64 - 2 ^ 63

/-- The Go conversion `int32(x)` of a `float64`, as in `api.PublicLink_ItemType(x)`. -/
def toInt32 (a : Arch) (x : ℚ) : Int :=
  if -(2 ^ 31) ≤ truncQ x ∧ truncQ x < 2 ^ 31 then truncQ x
  else (a.f64ToInt32 x + 2 ^ 31) % 2 ^ 32 - 2 ^ 31

/-! ## The JWT library -/

/-- The signing methods jwt-go registers. -/
inductive SigningMethod where
  | HS256 | HS384 | HS512
  | RS256 | RS384 | RS512
  | ES256 | ES384 | ES512
  | PS256 | PS384 | PS512
  | None
  deriving DecidableEq, Repr

/-- The name of a method as the token header gives it (`Alg()`). -/
def SigningMethod.Alg : SigningMethod → String
  | .HS256 => "HS256" | .HS384 => "HS384" | .HS512 => "HS512"
  | .RS256 => "RS256" | .RS384 => "RS384" | .RS512 => "RS512"
  | .ES256 => "ES256" | .ES384 => "ES384" | .ES512 => "ES512"
  | .PS256 => "PS256" | .PS384 => "PS384" | .PS512 => "PS512"
  | .None => "none"

/-- The lookup `jwt.GetSigningMethod`. -/
def GetSigningMethod (alg : String) : Option SigningMethod :=
  if alg = "HS256" then some .HS256 else if alg = "HS384" then some .HS384
  else if alg = "HS512" then some .HS512 else if alg = "RS256" then some .RS256
  else if alg = "RS384" then some .RS384 else if alg = "RS512" then some .RS512
  else if alg = "ES256" then some .ES256 else if alg = "ES384" then some .ES384
  else if alg = "ES512" then some .ES512 else if alg = "PS256" then some .PS256
  else if alg = "PS384" then some .PS384 else if alg = "PS512" then some .PS512
  else if alg = "none" then some .None else none

/-- The method's dynamic type is `*jwt.SigningMethodRSA`. The PSS methods have the distinct
type `*jwt.SigningMethodRSAPSS`. -/
def SigningMethod.isRSA : SigningMethod → Bool
  | .RS256 | .RS384 | .RS512 => true
  | _ => false

/-- The method's dynamic type is `*jwt.SigningMethodHMAC`. -/
def SigningMethod.isHMAC : SigningMethod → Bool
  | .HS256 | .HS384 | .HS512 => true
  | _ => false

/-- The method's dynamic type is `*jwt.SigningMethodRSAPSS`. -/
def SigningMethod.isRSAPSS : SigningMethod → Bool
  | .PS256 | .PS384 | .PS512 => true
  | _ => false

/-- An RSA public key. -/
structure RSAPublicKey where
  N : Nat
  E : Nat
  deriving DecidableEq, Repr

/-- What a key function hands to the library: a byte string, or a `*rsa.PublicKey`
(`none` is the nil pointer). -/
inductive Key where
  | bytes (s : GoString)
  | rsaPublicKey (k : Option RSAPublicKey)
  deriving DecidableEq, Repr

abbrev Sig := List UInt8

/-- The text a signature covers: the header and claims segments. -/
structure SigningInput where
  alg : Option String
  claims : MapClaims

/-- A token string. A string that does not split into three decodable segments is
`malformed`; otherwise it is its header's `alg` entry (`none` when it is missing or not a
string), its claim set and its signature. -/
inductive TokenString where
  | malformed
  | compact (alg : Option String) (claims : MapClaims) (sig : Sig)

/-- The primitives the model does not look into: the keyed hash of the HMAC methods, the
signature check of the RSA methods, and the JSON rendering of a `time.Time` (an RFC 3339
string, or an error for a year outside 0..9999). -/
structure JwtLib where
  hmac : SigningMethod → GoString → SigningInput → Sig
  rsaVerify : SigningMethod → RSAPublicKey → SigningInput → Sig → Bool
  marshalTime : Int → Option GoString

/-- One value through `json.Marshal` and back through the parser's `json.Decoder`. In a
string every byte that is not well-formed UTF-8 comes back as U+FFFD. -/
def wireVal (lib : JwtLib) : GoVal → Option JVal
  | .string s => some (.str (jsonString s))
  | .bool b => some (.bool b)
  | .uint64 n => some (.num (f64OfNat n : ℚ))
  | .int32 i => some (.num (i : ℚ))
  | .strings none => some .null
  | .strings (some xs) => some (.arr (xs.map fun x => JVal.str (jsonString x)))
  | .time t => (lib.marshalTime t).map JVal.str

/-- A claim map through `json.Marshal` and back; fails when one value fails to marshal. -/
def wireClaims (lib : JwtLib) : List (String × GoVal) → Option MapClaims
  | [] => some []
  | (k, v) :: rest =>
    match wireVal lib v with
    | none => none
    | some w =>
      match wireClaims lib rest with
      | none => none
      | some ws => some ((k, w) :: ws)

/-- The method `Verify` of a signing method. With a nil `*rsa.PublicKey` the RSA methods
pass the type assertion and panic inside `rsa.VerifyPKCS1v15` (RS) or `rsa.VerifyPSS`
(PS), which dereference the key. -/
def SigningMethod.Verify (lib : JwtLib) (m : SigningMethod) (input : SigningInput) (sig : Sig) :
    Key → GoResult Unit
  | .bytes s =>
    if m.isHMAC then
      if lib.hmac m s input = sig then .ok () else .error "signature is invalid"
    else if m = .None then .error "the none signature type is not allowed"
    else .error "key is of invalid type"
  | .rsaPublicKey k =>
    if m.isRSA || m.isRSAPSS then
      match k with
      | none => .panicked "invalid memory address or nil pointer dereference"
      | some pk =>
        if lib.rsaVerify m pk input sig then .ok () else .error "crypto/rsa: verification error"
    else if m = .None then .error "the none signature type is not allowed"
    else .error "key is of invalid type"

/-- The helper `verifyExp`. -/
def verifyExp (exp now : Int) (required : Bool) : Bool :=
  if exp = 0 then !required else decide (now ≤ exp)

/-- The helper `verifyIat`. -/
def verifyIat (iat now : Int) (required : Bool) : Bool :=
  if iat = 0 then !required else decide (iat ≤ now)

/-- The helper `verifyNbf`. -/
def verifyNbf (nbf now : Int) (required : Bool) : Bool :=
  if nbf = 0 then !required else decide (nbf ≤ now)

/-- The method `MapClaims.VerifyExpiresAt`: only a numeric `exp` is compared with the
clock; with any other `exp` the result is `req == false`. -/
def VerifyExpiresAt (a : Arch) (m : MapClaims) (cmp : Int) (req : Bool) : Bool :=
  match m.lookup "exp" with
  | some (.num x) => verifyExp (toInt64 a x) cmp req
  | _ => req == false

/-- The method `MapClaims.VerifyIssuedAt`. -/
def VerifyIssuedAt (a : Arch) (m : MapClaims) (cmp : Int) (req : Bool) : Bool :=
  match m.lookup "iat" with
  | some (.num x) => verifyIat (toInt64 a x) cmp req
  | _ => req == false

/-- The method `MapClaims.VerifyNotBefore`. -/
def VerifyNotBefore (a : Arch) (m : MapClaims) (cmp : Int) (req : Bool) : Bool :=
  match m.lookup "nbf" with
  | some (.num x) => verifyNbf (toInt64 a x) cmp req
  | _ => req == false

/-- The method `MapClaims.Valid` at clock reading `now` (Unix seconds). -/
def MapClaimsValid (a : Arch) (now : Int) (m : MapClaims) : Except String Unit :=
  if VerifyNotBefore a m now false = false then .error "Token is not valid yet"
  else if VerifyIssuedAt a m now false = false then .error "Token used before issued"
  else if VerifyExpiresAt a m now false = false then .error "Token is expired"
  else .ok ()

/-- The function `jwt.Parse` with a key function, returning the claims of a token it holds
valid. The key function sees the token's method only. A panic of `Verify` unwinds the
call. -/
def jwtParse (lib : JwtLib) (a : Arch) (now : Int) (keyFunc : SigningMethod → Except String Key) :
    TokenString → GoResult MapClaims
  | .malformed => .error "token contains an invalid number of segments"
  | .compact alg claims sig =>
    match alg with
    | none => .error "signing method (alg) is unspecified."
    | some name =>
      match GetSigningMethod name with
      | none => .error "signing method (alg) is unavailable."
      | some m =>
        match keyFunc m with
        | .error e => .error e
        | .ok key =>
          match m.Verify lib ⟨alg, claims⟩ sig key with
          | .error e => .error e
          | .panicked e => .panicked e
          | .ok _ =>
            match MapClaimsValid a now claims with
            | .error e => .error e
            | .ok _ => .ok claims

/-- The token an HMAC method makes of a claim set that is already in wire form: the
header names the method and the signature is the keyed hash of header and claims. -/
def signedToken (lib : JwtLib) (m : SigningMethod) (wire : MapClaims) (key : GoString) :
    TokenString :=
  .compact (some m.Alg) wire (lib.hmac m key ⟨some m.Alg, wire⟩)

/-- The calls `jwt.New(method)` and `token.SignedString([]byte(key))` for an HMAC method. -/
def SignedString (lib : JwtLib) (m : SigningMethod) (claims : List (String × GoVal))
    (key : GoString) : Except String TokenString :=
  match wireClaims lib claims with
  | none => .error "json: error calling MarshalJSON for type time.Time"
  | some wire => .ok (signedToken lib m wire key)

/-! ## The token manager -/

/-- The record `api.User`. -/
structure User where
  AccountId : GoString
  DisplayName : GoString
  Groups : Option (List GoString)
  deriving DecidableEq, Repr

/-- The record `api.PublicLink`; `Expires` and `Mtime` are `uint64`, `ItemType` is an
`int32` enumeration. -/
structure PublicLink where
  Token : GoString
  OwnerId : GoString
  Id : GoString
  Path : GoString
  Protected : Bool
  Expires : Nat
  ReadOnly : Bool
  DropOnly : Bool
  Mtime : Nat
  ItemType : Int
  Name : GoString
  deriving DecidableEq, Repr

structure tokenManager where
  signSecret : GoString
  publicKey : Option RSAPublicKey

/-- The claims `ForgeUserToken` sets, in source order. -/
def userClaims (now : Int) (user : User) : List (String × GoVal) :=
  [("account_id", .string user.AccountId),
   ("display_name", .string user.DisplayName),
   ("groups", .strings user.Groups),
   ("exp", .time (now + 3600))]

def ForgeUserToken (lib : JwtLib) (tm : tokenManager) (now : Int) (user : User) :
    Except String TokenString :=
  SignedString lib .HS256 (userClaims now user) tm.signSecret

/-- The key function of `DismantleUserToken`. -/
def userKeyFunc (tm : tokenManager) (m : SigningMethod) : Except String Key :=
  if m.isRSA then .ok (.rsaPublicKey tm.publicKey)
  else if m.isHMAC then .ok (.bytes tm.signSecret)
  else .error "unsupported token method"

/-- The type assertion `v.(string)` whose failure is ignored: the zero value on failure. -/
def stringOrZero : Option JVal → GoString
  | some (.str s) => s
  | _ => []

/-- The loop over `rawGroups`: appends each element to `groups` when it is a string. -/
def castGroups : List JVal → List GoString → Except String (List GoString)
  | [], groups => .ok groups
  | .str group :: rest, groups => castGroups rest (groups ++ [group])
  | _ :: _, _ => .error "group can not be casted to string"

def DismantleUserToken (lib : JwtLib) (a : Arch) (tm : tokenManager) (now : Int)
    (token : TokenString) : GoResult User :=
  match jwtParse lib a now (userKeyFunc tm) token with
  | .error e => .error e
  | .panicked e => .panicked e
  | .ok claims =>
    match claims.lookup "kc.identity" with
    | some (.obj kopanoIdentity) =>
      match kopanoIdentity.lookup "kc.i.un" with
      | some (.str accountID) =>
        .ok { AccountId := accountID, Groups := some [],
              DisplayName := stringOrZero (kopanoIdentity.lookup "kc.i.dn") }
      | _ => .error "kc.identity kc.i.un claim is not a string"
    | _ =>
      match claims.lookup "account_id" with
      | some (.str accountID) =>
        match claims.lookup "groups" with
        | some (.arr rawGroups) =>
          match castGroups rawGroups [] with
          | .error e => .error e
          | .ok groups =>
            .ok { AccountId := accountID, Groups := some groups,
                  DisplayName := stringOrZero (claims.lookup "display_name") }
        | _ => .error "groups claim is not a []interface\x7b\x7d"
      | _ => .error "account_id claim is not a string"

/-- The claims `ForgePublicLinkToken` sets, in source order. -/
def publicLinkClaims (now : Int) (pl : PublicLink) : List (String × GoVal) :=
  [("token", .string pl.Token),
   ("owner", .string pl.OwnerId),
   ("id", .string pl.Id),
   ("path", .string pl.Path),
   ("protected", .bool pl.Protected),
   ("expires", .uint64 pl.Expires),
   ("read_only", .bool pl.ReadOnly),
   ("drop_only", .bool pl.DropOnly),
   ("mtime", .uint64 pl.Mtime),
   ("item_type", .int32 pl.ItemType),
   ("share_name", .string pl.Name),
   ("exp", .time (now + 3600))]

def ForgePublicLinkToken (lib : JwtLib) (tm : tokenManager) (now : Int) (pl : PublicLink) :
    Except String TokenString :=
  SignedString lib .HS256 (publicLinkClaims now pl) tm.signSecret

/-- The key function of `DismantlePublicLinkToken`: the secret, whatever the method. -/
def publicLinkKeyFunc (tm : tokenManager) (_m : SigningMethod) : Except String Key :=
  .ok (.bytes tm.signSecret)

/-- The claim extraction of `DismantlePublicLinkToken` (the part after `jwt.Parse`). The
result leaves `Id` and `Expires` at their zero values. -/
def extractPublicLink (a : Arch) (claims : MapClaims) : GoResult PublicLink :=
  match claims.lookup "token" with
  | some (.str token) =>
    match claims.lookup "owner" with
    | some (.str owner) =>
      match claims.lookup "read_only" with
      | some (.bool readOnly) =>
        match claims.lookup "drop_only" with
        | some (.bool dropOnly) =>
          match claims.lookup "path" with
          | some (.str path) =>
            match claims.lookup "protected" with
            | some (.bool protected_) =>
              match claims.lookup "mtime" with
              | some (.num mtime) =>
                match claims.lookup "item_type" with
                | some (.num itemType) =>
                  match claims.lookup "share_name" with
                  | some (.str shareName) =>
                    .ok { Token := token, OwnerId := owner, Id := [], Path := path,
                          Protected := protected_, Expires := 0, ReadOnly := readOnly,
                          DropOnly := dropOnly, Mtime := toUint64 a mtime,
                          ItemType := toInt32 a itemType, Name := shareName }
                  | _ => .error "share_name claim is not a string"
                | _ => .error "item_type claim is not a float64"
              | _ => .error "mtime claim is not a float64"
            | _ => .error "protected claim is not a bool"
          | _ => .error "path claim is not a string"
        | _ => .error "drop_only claim is not a bool"
      | _ => .error "read_only claim is not a bool"
    | _ => .error "owner claim is not a string"
  | _ => .error "token claim is not a string"

def DismantlePublicLinkToken (lib : JwtLib) (a : Arch) (tm : tokenManager) (now : Int)
    (token : TokenString) : GoResult PublicLink :=
  match jwtParse lib a now (publicLinkKeyFunc tm) token with
  | .error e => .error e
  | .panicked e => .panicked e
  | .ok claims => extractPublicLink a claims

/-! ## Chunked upload (`reva-cli/cmds/storagecmd/storagecmd.go`) -/

/-- The message `api.TxChunk`. -/
structure TxChunk where
  TxId : String
  Length : Nat
  Data : List UInt8
  Offset : Nat
  deriving DecidableEq, Repr

/-- Everything `upload` reaches outside itself: the local file system, the storage client
and its stream. `readSize i` is how many bytes the operating system is willing to deliver
on the `i`-th read (a read may be short), `readFails i` and `sendFails i` tell whether the
`i`-th read and the `i`-th send fail. -/
structure UploadEnv where
  openFile : String → Option (List UInt8)
  storageClient : Bool
  startWriteTx : Option String
  writeChunk : Bool
  readSize : Nat → Nat
  readFails : Nat → Bool
  sendFails : Nat → Bool
  closeAndRecv : Bool
  finishWriteTx : String → String → Bool

/-- The remote calls `upload` makes, in order. -/
inductive Call where
  | StartWriteTx
  | WriteChunk
  | Send (dc : TxChunk)
  | CloseAndRecv
  | FinishWriteTx (path txId : String)
  deriving DecidableEq, Repr

/-- The error value of `fd.Read`. -/
inductive ReadErr where
  | nil
  | EOF
  | failed
  deriving DecidableEq, Repr

/-- The call `fd.Read(buffer)` on a regular file of content `file` at position `pos`, with
a buffer of `bufLen` bytes: the number of bytes read and the error. At the end of the file
it returns `0, io.EOF`; before the end it delivers at least one byte when the buffer has
room, at most the buffer and at most what is left. -/
def fdRead (env : UploadEnv) (file : List UInt8) (reads pos bufLen : Nat) : Nat × ReadErr :=
  if env.readFails reads then (0, .failed)
  else if file.length ≤ pos then (0, .EOF)
  else (min (max (env.readSize reads) 1) (min bufLen (file.length - pos)), .nil)

/-- How the chunk loop ends: it breaks at `io.EOF`, it returns an exit error, or the
model ran out of steps. -/
inductive LoopExit where
  | done
  | failed
  | running
  deriving DecidableEq, Repr

/-- The size of the read buffer, `make([]byte, 1024*1024*3)`. -/
def bufferSize : Nat := 1024 * 1024 * 3

/-- The chunk loop of `upload`, for at most the given number of rounds: the chunks handed
to `stream.Send`, in order, and how the loop ended. `buffer` is the read buffer as the
previous round left it, `offset` and `numChunks` are the `uint64` counters of the source.
A read of `n` bytes overwrites the first `n` bytes of the buffer, and the chunk carries
the whole buffer as `Data`. -/
def uploadLoop (env : UploadEnv) (file : List UInt8) (txId : String) :
    Nat → Nat → Nat → List UInt8 → Nat → Nat → LoopExit × List TxChunk
  | 0, _, _, _, _, _ => (.running, [])
  | fuel + 1, reads, pos, buffer, offset, numChunks =>
    let r := fdRead env file reads pos buffer.length
    let buffer' := (file.drop pos).take r.1 ++ buffer.drop r.1
    if 0 < r.1 then
      let dc : TxChunk := { TxId := txId, Length := r.1, Data := buffer', Offset := offset }
      if env.sendFails numChunks then (.failed, [dc])
      else
        match r.2 with
        | .EOF => (.done, [dc])
        | .failed => (.failed, [dc])
        | .nil =>
          let rest := uploadLoop env file txId fuel (reads + 1) (pos + r.1) buffer'
            ((offset + r.1) % 2 ^ 64) ((numChunks + 1) % 2 ^ 64)
          (rest.1, dc :: rest.2)
    else
      match r.2 with
      | .EOF => (.done, [])
      | .failed => (.failed, [])
      | .nil => uploadLoop env file txId fuel (reads + 1) pos buffer' offset numChunks

/-- The command `upload` on its argument list: whether it returns `nil`, and the remote
calls it made. One round per byte of the file and one more for the end of file are enough
rounds for the loop. -/
def upload (env : UploadEnv) (args : List String) : Bool × List Call :=
  match args with
  | path :: localFile :: _ =>
    if path = "" then (false, [])
    else if localFile = "" then (false, [])
    else
      match env.openFile localFile with
      | none => (false, [])
      | some file =>
        if env.storageClient = false then (false, [])
        else
          match env.startWriteTx with
          | none => (false, [.StartWriteTx])
          | some txId =>
            if env.writeChunk = false then (false, [.StartWriteTx, .WriteChunk])
            else
              let r := uploadLoop env file txId (file.length + 1) 0 0
                (List.replicate bufferSize 0) 0 0
              let sent := [Call.StartWriteTx, Call.WriteChunk] ++ r.2.map Call.Send
              match r.1 with
              | .done =>
                if env.closeAndRecv = false then (false, sent ++ [.CloseAndRecv])
                else if env.finishWriteTx path txId = false then
                  (false, sent ++ [.CloseAndRecv, .FinishWriteTx path txId])
                else (true, sent ++ [.CloseAndRecv, .FinishWriteTx path txId])
              | _ => (false, sent)
  | _ => (false, [])

/-! ## Chunked download (`reva-cli/cmds/storagecmd/storagecmd.go`) -/

/-- Modelled from the spec: the record a read stream delivers. Its declaration is not among
the sources; `download` and `downloadRevision` use its fields `Length` and `Data` only.
`Length` is an unsigned integer of at most 64 bits (the spec gives `uint32`). -/
structure DataChunk where
  Length : Nat
  Data : List UInt8
  deriving DecidableEq, Repr

/-- The error value of `stream.Recv()`. -/
inductive RecvErr where
  | nil
  | EOF
  | failed
  deriving DecidableEq, Repr

/-- One result of `stream.Recv()`: the chunk (`none` is the nil pointer) and the error. -/
structure RecvResult where
  dc : Option DataChunk
  err : RecvErr
  deriving DecidableEq, Repr

/-- Everything the download commands reach outside themselves: whether the local file can
be opened (and truncated), the storage client, the streams `ReadFile` and `ReadRevision`
open, given as the results of their successive `Recv` calls, and for the `i`-th copy to
the local file whether the write fails, and after how many bytes. -/
structure DownloadEnv where
  openFile : String → Bool
  storageClient : Bool
  readFile : String → Option (List RecvResult)
  readRevision : String → String → Option (List RecvResult)
  writeFails : Nat → Option Nat

/-- How a command ends: it returns `nil`, it returns an exit error, it panics on a nil
pointer, or it is still waiting for the stream when the given results are used up. -/
inductive CmdExit where
  | ok
  | failed
  | panicked
  | running
  deriving DecidableEq, Repr

/-- The Go conversion `int64(n)` of an unsigned integer of at most 64 bits. -/
def int64OfUint64 (n : Nat) : Int :=
  if n % 2 ^ 64 < 2 ^ 63 then ((n % 2 ^ 64 : Nat) : Int) else ((n % 2 ^ 64 : Nat) : Int) - 2 ^ 64

/-- The call `io.CopyN(fd, bytes.NewReader(data), n)`: the bytes that reach the file and
whether the error is nil. With `n ≤ 0` nothing is copied and the error is nil. With fewer
than `n` bytes of data all of them are copied and the error is `io.EOF`. `wr = some k`
is a write that fails after `k` bytes. -/
def copyN (wr : Option Nat) (data : List UInt8) (n : Int) : List UInt8 × Bool :=
  if n ≤ 0 then ([], true)
  else
    match wr with
    | some k => ((data.take n.toNat).take k, false)
    | none => (data.take n.toNat, decide (n.toNat ≤ data.length))

/-- The receive loop of `download` on the results of the successive `Recv` calls: how it
ends and the content of the local file. `writes` counts the copies made so far. -/
def downloadLoop (env : DownloadEnv) : List RecvResult → Nat → List UInt8 → CmdExit × List UInt8
  | [], _, content => (.running, content)
  | r :: rest, writes, content =>
    match r.dc with
    | some dc =>
      if 0 < dc.Length then
        let c := copyN (env.writeFails writes) dc.Data (int64OfUint64 dc.Length)
        if c.2 = false then (.failed, content ++ c.1)
        else
          match r.err with
          | .EOF => (.ok, content ++ c.1)
          | .failed => (.failed, content ++ c.1)
          | .nil => downloadLoop env rest (writes + 1) (content ++ c.1)
      else
        match r.err with
        | .EOF => (.ok, content)
        | .failed => (.failed, content)
        | .nil => downloadLoop env rest writes content
    | none =>
      match r.err with
      | .EOF => (.ok, content)
      | .failed => (.failed, content)
      | .nil => downloadLoop env rest writes content

/-- The receive loop of `downloadRevision`: it breaks at `io.EOF` before it looks at the
chunk, it does not look at any other error, and it reads `dc.Length` of a nil chunk. -/
def downloadRevisionLoop (env : DownloadEnv) :
    List RecvResult → Nat → List UInt8 → CmdExit × List UInt8
  | [], _, content => (.running, content)
  | r :: rest, writes, content =>
    match r.err with
    | .EOF => (.ok, content)
    | _ =>
      match r.dc with
      | none => (.panicked, content)
      | some dc =>
        if 0 < dc.Length then
          let c := copyN (env.writeFails writes) dc.Data (int64OfUint64 dc.Length)
          if c.2 = false then (.failed, content ++ c.1)
          else downloadRevisionLoop env rest (writes + 1) (content ++ c.1)
        else downloadRevisionLoop env rest writes content

/-- The command `download` on its argument list: how it ends and the content of the local
file, `none` when the file was not opened. Opening truncates the file. -/
def download (env : DownloadEnv) (args : List String) : CmdExit × Option (List UInt8) :=
  match args with
  | path :: localFile :: _ =>
    if path = "" then (.failed, none)
    else if localFile = "" then (.failed, none)
    else if env.openFile localFile = false then (.failed, none)
    else if env.storageClient = false then (.failed, some [])
    else
      match env.readFile path with
      | none => (.failed, some [])
      | some stream =>
        let r := downloadLoop env stream 0 []
        (r.1, some r.2)
  | _ => (.failed, none)

/-- The command `downloadRevision` on its argument list. -/
def downloadRevision (env : DownloadEnv) (args : List String) :
    CmdExit × Option (List UInt8) :=
  match args with
  | path :: revKey :: localFile :: _ =>
    if path = "" then (.failed, none)
    else if revKey = "" then (.failed, none)
    else if localFile = "" then (.failed, none)
    else if env.openFile localFile = false then (.failed, none)
    else if env.storageClient = false then (.failed, some [])
    else
      match env.readRevision path revKey with
      | none => (.failed, some [])
      | some stream =>
        let r := downloadRevisionLoop env stream 0 []
        (r.1, some r.2)
  | _ => (.failed, none)

/-- The results of the `Recv` calls on a stream that delivers the given chunks and then
ends: each chunk with a nil error, then a nil chunk with `io.EOF`. -/
def streamOf (chunks : List DataChunk) : List RecvResult :=
  chunks.map (fun c => { dc := some c, err := .nil }) ++ [{ dc := none, err := .EOF }]

/-! ## Example data -/

/-- A stand-in for the cryptographic primitives: the keyed hash is the key bytes followed
by the number of claims; the timestamp rendering is the one of the source comment. -/
def exampleLib : JwtLib where
  hmac := fun _ key input =>
    key ++ [UInt8.ofNat input.claims.length]
  rsaVerify := fun _ pk input sig =>
    decide (sig = [UInt8.ofNat pk.N, UInt8.ofNat input.claims.length])
  marshalTime := fun _ => some (utf8 "2018-07-24T10:11:11.827901148+02:00")

def exampleArch : Arch where
  f64ToUint64 := fun _ => 2 ^ 63
  f64ToInt64 := fun _ => -(2 ^ 63)
  f64ToInt32 := fun _ => -(2 ^ 31)

def exampleManager : tokenManager := ⟨utf8 "secret", some ⟨3233, 17⟩⟩

/-- The link of the source comment, with a `Token` that ends in the byte `FF`, which is not
UTF-8, and an `Mtime` that is not a `float64`. -/
def linkLossy : PublicLink :=
  { Token := [0x74, 0xFF], OwnerId := utf8 "gonzalhu", Id := utf8 "103",
    Path := utf8 "oldhome:22510091102060544", Protected := false, Expires := 1532449179,
    ReadOnly := true, DropOnly := false, Mtime := 9007199254740993, ItemType := 0,
    Name := utf8 "report" }

/-- The link of the source comment. -/
def linkComment : PublicLink :=
  { Token := utf8 "fgDsc2WD8F2qNfH", OwnerId := utf8 "gonzalhu", Id := utf8 "103",
    Path := utf8 "oldhome:22510091102060544", Protected := false, Expires := 0,
    ReadOnly := true, DropOnly := false, Mtime := 1532362779, ItemType := 0,
    Name := utf8 "report" }

/-- A link that is both read-only and drop-only. -/
def linkContradictory : PublicLink :=
  { Token := utf8 "fgDsc2WD8F2qNfH", OwnerId := utf8 "gonzalhu", Id := utf8 "104",
    Path := utf8 "oldhome:22510091102060544", Protected := false, Expires := 0,
    ReadOnly := true, DropOnly := true, Mtime := 1532362779, ItemType := 1,
    Name := utf8 "inbox" }

/-- A user whose `Groups` field was never set. -/
def userNoGroups : User :=
  { AccountId := utf8 "gonzalhu", DisplayName := utf8 "Hugo", Groups := none }

def userTwoGroups : User :=
  { AccountId := utf8 "gonzalhu", DisplayName := utf8 "Hugo",
    Groups := some [utf8 "staff", utf8 "it"] }

/-- The nine claims `DismantlePublicLinkToken` reads, without `id` and `expires`. -/
def claimsNoIdNoExpires : MapClaims :=
  [("token", .str (utf8 "fgDsc2WD8F2qNfH")), ("owner", .str (utf8 "gonzalhu")),
   ("path", .str (utf8 "/docs")), ("protected", .bool false), ("read_only", .bool true), ("drop_only", .bool false),
   ("mtime", .num 1532362779), ("item_type", .num 0), ("share_name", .str (utf8 "report"))]

/-- A claim set whose `mtime` has a fractional part and whose `item_type` is negative
with a fractional part. -/
def claimsFractional : MapClaims :=
  [("token", .str (utf8 "fgDsc2WD8F2qNfH")), ("owner", .str (utf8 "gonzalhu")),
   ("path", .str (utf8 "/docs")), ("protected", .bool false), ("read_only", .bool true), ("drop_only", .bool false),
   ("mtime", .num (3 / 2)), ("item_type", .num (-5 / 2)), ("share_name", .str (utf8 "report"))]

/-- A claim set whose `mtime` lies between -1 and 0. -/
def claimsNegativeHalf : MapClaims :=
  [("token", .str (utf8 "fgDsc2WD8F2qNfH")), ("owner", .str (utf8 "gonzalhu")),
   ("path", .str (utf8 "/docs")), ("protected", .bool false), ("read_only", .bool true),
   ("drop_only", .bool false), ("mtime", .num (-1 / 2)), ("item_type", .num (1 / 2)),
   ("share_name", .str (utf8 "report"))]

def claimsNative : MapClaims :=
  [("account_id", .str (utf8 "gonzalhu")), ("display_name", .str (utf8 "Hugo")),
   ("groups", .arr [.str (utf8 "staff"), .str (utf8 "it")])]

def claimsFederated : MapClaims :=
  [("account_id", .num 7), ("groups", .str (utf8 "staff")),
   ("kc.identity", .obj [("kc.i.un", .str (utf8 "hugo")), ("kc.i.dn", .str (utf8 "Hugo G"))])]

/-- A token that declares RS256, with a signature `exampleLib.rsaVerify` accepts under the
public key of `exampleManager`. -/
def tokenRS256 : TokenString :=
  .compact (some "RS256") claimsNative [UInt8.ofNat 3233, 3]

/-- A one-byte local file, read and sent without failure. -/
def envOneByte : UploadEnv where
  openFile := fun _ => some [97]
  storageClient := true
  startWriteTx := some "tx-1"
  writeChunk := true
  readSize := fun _ => bufferSize
  readFails := fun _ => false
  sendFails := fun _ => false
  closeAndRecv := true
  finishWriteTx := fun _ _ => true

/-- A two-byte local file that the operating system delivers one byte per read. -/
def envTwoBytes : UploadEnv where
  openFile := fun _ => some [104, 105]
  storageClient := true
  startWriteTx := some "tx-2"
  writeChunk := true
  readSize := fun _ => 1
  readFails := fun _ => false
  sendFails := fun _ => false
  closeAndRecv := true
  finishWriteTx := fun _ _ => true

/-- An empty local file. -/
def envEmptyFile : UploadEnv where
  openFile := fun _ => some []
  storageClient := true
  startWriteTx := some "tx-0"
  writeChunk := true
  readSize := fun _ => bufferSize
  readFails := fun _ => false
  sendFails := fun _ => false
  closeAndRecv := true
  finishWriteTx := fun _ _ => true

/-- Three chunks, the second of `Length` 0 and the third with more `Data` than `Length`. -/
def chunksThree : List DataChunk :=
  [{ Length := 2, Data := [104, 105] }, { Length := 0, Data := [] },
   { Length := 1, Data := [33, 0, 0] }]

/-- A download in which nothing fails; both streams deliver `chunksThree`. -/
def envDownload : DownloadEnv where
  openFile := fun _ => true
  storageClient := true
  readFile := fun _ => some (streamOf chunksThree)
  readRevision := fun _ _ => some (streamOf chunksThree)
  writeFails := fun _ => none

/-! ## Numeric conversions -/

theorem truncQ_intCast (i : Int) : truncQ (i : ℚ) = i := by
  simp [truncQ]

theorem truncQ_natCast (n : Nat) : truncQ (n : ℚ) = n := by
  simp [truncQ]

theorem toUint64_natCast (a : Arch) (n : Nat) (h : n < 2 ^ 64) : toUint64 a (n : ℚ) = n := by
  have h' : (n : Int) < 2 ^ 64 := by exact_mod_cast h
  unfold toUint64
  rw [truncQ_natCast, if_pos ⟨Int.natCast_nonneg n, h'⟩, Int.toNat_natCast]

theorem toInt32_intCast (a : Arch) (i : Int) (h₁ : -(2 ^ 31) ≤ i) (h₂ : i < 2 ^ 31) :
    toInt32 a (i : ℚ) = i := by
  unfold toInt32
  rw [truncQ_intCast, if_pos ⟨h₁, h₂⟩]

theorem log2_eq_of_bounds {n k : Nat} (h₁ : 2 ^ k ≤ n) (h₂ : n < 2 ^ (k + 1)) :
    Nat.log2 n = k := by
  have hn : n ≠ 0 := by
    have : 0 < 2 ^ k := Nat.two_pow_pos k
    omega
  have a := (Nat.le_log2 hn).mpr h₁
  have b := (Nat.log2_lt hn).mpr h₂
  omega

/-- A natural number below `2 ^ 53` is a `float64`. -/
theorem f64OfNat_of_lt (n : Nat) (h : n < 2 ^ 53) : f64OfNat n = n := by
  have he : Nat.log2 n + 1 - 53 = 0 := by
    rcases Nat.eq_zero_or_pos n with h0 | h0
    · subst h0; simp [Nat.log2]
    · have := (Nat.log2_lt (Nat.pos_iff_ne_zero.mp h0)).mpr h
      omega
  unfold f64OfNat
  simp only [he, pow_zero, Nat.div_one, Nat.mod_one, Nat.mul_zero, Nat.mul_one]
  simp

theorem f64OfNat_eq (n e : Nat) (he : Nat.log2 n + 1 - 53 = e) :
    f64OfNat n = (if 2 ^ e < 2 * (n % 2 ^ e) ∨ (2 * (n % 2 ^ e) = 2 ^ e ∧ n / 2 ^ e % 2 = 1)
      then n / 2 ^ e + 1 else n / 2 ^ e) * 2 ^ e := by
  subst he; rfl

/-- The odd number `2 ^ 53 + 1` is rounded to `2 ^ 53`. -/
theorem f64OfNat_two_pow_53_succ : f64OfNat 9007199254740993 = 9007199254740992 := by
  have hl : Nat.log2 9007199254740993 = 53 := log2_eq_of_bounds (by norm_num) (by norm_num)
  rw [f64OfNat_eq _ 1 (by rw [hl])]
  norm_num

/-! ## Strings through JSON -/

theorem jsonStringFrom_of_valid (s : List UInt8) :
    ∀ skip, utf8ValidFrom skip s = true → jsonStringFrom skip s = s := by
  induction s with
  | nil => intro skip _; cases skip <;> rfl
  | cons b rest ih =>
    intro skip h
    cases skip with
    | zero =>
      simp only [utf8ValidFrom, Bool.and_eq_true, bne_iff_ne, ne_eq] at h
      simp only [jsonStringFrom, if_neg h.1, ih _ h.2]
    | succ k =>
      simp only [utf8ValidFrom] at h
      simp only [jsonStringFrom, ih _ h]

/-- A well-formed UTF-8 string comes back from JSON as it went in. -/
theorem jsonString_of_valid (s : GoString) (h : utf8Valid s = true) : jsonString s = s :=
  jsonStringFrom_of_valid s 0 h

/-- The byte `FF` comes back from JSON as U+FFFD. -/
theorem jsonString_t_ff : jsonString [0x74, 0xFF] = [0x74, 0xEF, 0xBF, 0xBD] := by
  decide

/-! ## Forging and parsing -/

theorem wireClaims_publicLink (lib : JwtLib) (now : Int) (pl : PublicLink) (s : GoString)
    (hs : lib.marshalTime (now + 3600) = some s) :
    wireClaims lib (publicLinkClaims now pl) = some
      [("token", .str (jsonString pl.Token)), ("owner", .str (jsonString pl.OwnerId)),
       ("id", .str (jsonString pl.Id)), ("path", .str (jsonString pl.Path)),
       ("protected", .bool pl.Protected),
       ("expires", .num (f64OfNat pl.Expires : ℚ)), ("read_only", .bool pl.ReadOnly),
       ("drop_only", .bool pl.DropOnly), ("mtime", .num (f64OfNat pl.Mtime : ℚ)),
       ("item_type", .num (pl.ItemType : ℚ)), ("share_name", .str (jsonString pl.Name)),
       ("exp", .str s)] := by
  simp [publicLinkClaims, wireClaims, wireVal, hs]

theorem wireClaims_user (lib : JwtLib) (now : Int) (u : User) (s : GoString)
    (hs : lib.marshalTime (now + 3600) = some s) :
    wireClaims lib (userClaims now u) = some
      [("account_id", .str (jsonString u.AccountId)),
       ("display_name", .str (jsonString u.DisplayName)),
       ("groups", match u.Groups with
                  | none => .null
                  | some xs => .arr (xs.map fun x => JVal.str (jsonString x))),
       ("exp", .str s)] := by
  cases hg : u.Groups <;> simp [userClaims, wireClaims, wireVal, hs, hg]

/-- Parsing a token signed with HS256 under the secret the key function returns comes down
to the check of the time claims. -/
theorem jwtParse_signed (lib : JwtLib) (a : Arch) (now : Int)
    (keyFunc : SigningMethod → Except String Key) (secret : GoString) (claims : MapClaims)
    (hk : keyFunc .HS256 = .ok (.bytes secret)) :
    jwtParse lib a now keyFunc (signedToken lib .HS256 claims secret) =
    match MapClaimsValid a now claims with
    | .error e => .error e
    | .ok _ => .ok claims := by
  simp [signedToken, jwtParse, GetSigningMethod, hk, SigningMethod.Verify,
    SigningMethod.isHMAC, SigningMethod.Alg]

/-- A claim set without numeric `exp`, `iat` and `nbf` passes the time checks at every
clock reading. -/
theorem MapClaimsValid_of_no_numeric (a : Arch) (now : Int) (claims : MapClaims)
    (hexp : ∀ x, claims.lookup "exp" ≠ some (.num x))
    (hiat : ∀ x, claims.lookup "iat" ≠ some (.num x))
    (hnbf : ∀ x, claims.lookup "nbf" ≠ some (.num x)) :
    MapClaimsValid a now claims = .ok () := by
  have h1 : VerifyNotBefore a claims now false = true := by
    unfold VerifyNotBefore
    split
    · rename_i x h; exact absurd h (hnbf x)
    · rfl
  have h2 : VerifyIssuedAt a claims now false = true := by
    unfold VerifyIssuedAt
    split
    · rename_i x h; exact absurd h (hiat x)
    · rfl
  have h3 : VerifyExpiresAt a claims now false = true := by
    unfold VerifyExpiresAt
    split
    · rename_i x h; exact absurd h (hexp x)
    · rfl
  simp [MapClaimsValid, h1, h2, h3]

theorem forge_publicLink_eq (lib : JwtLib) (tm : tokenManager) (now : Int) (pl : PublicLink)
    (wire : MapClaims) (hw : wireClaims lib (publicLinkClaims now pl) = some wire) :
    ForgePublicLinkToken lib tm now pl = .ok (signedToken lib .HS256 wire tm.signSecret) := by
  simp only [ForgePublicLinkToken, SignedString, hw]

theorem forge_user_eq (lib : JwtLib) (tm : tokenManager) (now : Int) (u : User)
    (wire : MapClaims) (hw : wireClaims lib (userClaims now u) = some wire) :
    ForgeUserToken lib tm now u = .ok (signedToken lib .HS256 wire tm.signSecret) := by
  simp only [ForgeUserToken, SignedString, hw]

/-- What `DismantlePublicLinkToken` returns for a token `ForgePublicLinkToken` made, at any
clock reading. -/
theorem dismantle_forged_publicLink (lib : JwtLib) (a : Arch) (tm : tokenManager)
    (now now' : Int) (pl : PublicLink) (s : GoString)
    (hs : lib.marshalTime (now + 3600) = some s) :
    ∃ token, ForgePublicLinkToken lib tm now pl = .ok token ∧
      DismantlePublicLinkToken lib a tm now' token = .ok
        { Token := jsonString pl.Token, OwnerId := jsonString pl.OwnerId, Id := [],
          Path := jsonString pl.Path, Protected := pl.Protected, Expires := 0,
          ReadOnly := pl.ReadOnly, DropOnly := pl.DropOnly,
          Mtime := toUint64 a (f64OfNat pl.Mtime : ℚ),
          ItemType := toInt32 a (pl.ItemType : ℚ), Name := jsonString pl.Name } := by
  refine ⟨_, forge_publicLink_eq lib tm now pl _ (wireClaims_publicLink lib now pl s hs), ?_⟩
  simp only [DismantlePublicLinkToken]
  rw [jwtParse_signed lib a now' _ tm.signSecret _ rfl]
  simp [MapClaimsValid, VerifyNotBefore, VerifyIssuedAt, VerifyExpiresAt, List.lookup,
    extractPublicLink]

theorem castGroups_map_str (xs acc : List GoString) :
    castGroups (xs.map JVal.str) acc = .ok (acc ++ xs) := by
  induction xs generalizing acc with
  | nil => simp [castGroups]
  | cons x xs ih => simp [castGroups, ih]

theorem castGroups_map_jsonString (xs acc : List GoString) :
    castGroups (xs.map fun x => JVal.str (jsonString x)) acc =
      .ok (acc ++ xs.map jsonString) := by
  have h := castGroups_map_str (xs.map jsonString) acc
  rwa [List.map_map] at h

/-- What `DismantleUserToken` returns for a token `ForgeUserToken` made, at any clock
reading. -/
theorem dismantle_forged_user (lib : JwtLib) (a : Arch) (tm : tokenManager)
    (now now' : Int) (u : User) (s : GoString)
    (hs : lib.marshalTime (now + 3600) = some s) :
    ∃ token, ForgeUserToken lib tm now u = .ok token ∧
      DismantleUserToken lib a tm now' token =
        match u.Groups with
        | none => .error "groups claim is not a []interface\x7b\x7d"
        | some gs => .ok { AccountId := jsonString u.AccountId,
                           DisplayName := jsonString u.DisplayName,
                           Groups := some (gs.map jsonString) } := by
  refine ⟨_, forge_user_eq lib tm now u _ (wireClaims_user lib now u s hs), ?_⟩
  simp only [DismantleUserToken]
  rw [jwtParse_signed lib a now' _ tm.signSecret _ rfl]
  cases hg : u.Groups with
  | none =>
    simp [MapClaimsValid, VerifyNotBefore, VerifyIssuedAt, VerifyExpiresAt, List.lookup]
  | some gs =>
    simp [MapClaimsValid, VerifyNotBefore, VerifyIssuedAt, VerifyExpiresAt, List.lookup,
      stringOrZero, castGroups_map_jsonString]

/-! ## C1: public-link round trip -/

/-- C1, as stated, fails: a link with `Token = "t\xff"` (not UTF-8), `Id = "103"`, a
non-zero `Expires` and `Mtime = 2 ^ 53 + 1` is forged into a token, and dismantling that
token at the time of issuance, before it expires, succeeds with a link that differs from
it in `Token`, `Id`, `Expires` and `Mtime`. -/
theorem publicLink_roundtrip_loses_fields :
    ∃ token l', ForgePublicLinkToken exampleLib exampleManager 0 linkLossy = .ok token ∧
      DismantlePublicLinkToken exampleLib exampleArch exampleManager 0 token = .ok l' ∧
      l' ≠ linkLossy ∧
      l'.Token = [0x74, 0xEF, 0xBF, 0xBD] ∧ linkLossy.Token = [0x74, 0xFF] ∧
      l'.Id = [] ∧ linkLossy.Id = utf8 "103" ∧
      l'.Expires = 0 ∧ linkLossy.Expires = 1532449179 ∧
      l'.Mtime = 9007199254740992 ∧ linkLossy.Mtime = 9007199254740993 := by
  obtain ⟨token, hf, hd⟩ :=
    dismantle_forged_publicLink exampleLib exampleArch exampleManager 0 0 linkLossy _ rfl
  refine ⟨token, _, hf, hd, ?_, jsonString_t_ff, rfl, rfl, rfl, rfl, rfl, ?_, rfl⟩
  · intro h
    have := congrArg PublicLink.Expires h
    simp [linkLossy] at this
  · dsimp only [linkLossy]
    rw [f64OfNat_two_pow_53_succ]
    exact toUint64_natCast exampleArch 9007199254740992 (by norm_num)

/-- C1, amended: for every public link whose strings `Token`, `OwnerId`, `Path` and `Name`
are well-formed UTF-8, whose `Mtime` is a `uint64` that is exactly a `float64` and whose
`ItemType` is an `int32`, whenever the expiry timestamp can be serialised,
`ForgePublicLinkToken` at time `now` returns a token, and `DismantlePublicLinkToken` of
that token at a time `now'` before the token expires (`now' ≤ now + 3600`) succeeds with
a link equal to the original in `Token`, `OwnerId`, `Path`, `Protected`, `ReadOnly`,
`DropOnly`, `Mtime`, `ItemType` and `Name`. -/
theorem publicLink_roundtrip_nine_fields (lib : JwtLib) (a : Arch) (tm : tokenManager)
    (now now' : Int) (l : PublicLink)
    (hexp : (lib.marshalTime (now + 3600)).isSome = true)
    (_hbefore : now' ≤ now + 3600)
    (hutf : utf8Valid l.Token = true ∧ utf8Valid l.OwnerId = true ∧
      utf8Valid l.Path = true ∧ utf8Valid l.Name = true)
    (hmtime : f64OfNat l.Mtime = l.Mtime) (hm64 : l.Mtime < 2 ^ 64)
    (hit : -(2 ^ 31) ≤ l.ItemType ∧ l.ItemType < 2 ^ 31) :
    ∃ token l', ForgePublicLinkToken lib tm now l = .ok token ∧
      DismantlePublicLinkToken lib a tm now' token = .ok l' ∧
      l'.Token = l.Token ∧ l'.OwnerId = l.OwnerId ∧ l'.Path = l.Path ∧
      l'.Protected = l.Protected ∧ l'.ReadOnly = l.ReadOnly ∧ l'.DropOnly = l.DropOnly ∧
      l'.Mtime = l.Mtime ∧ l'.ItemType = l.ItemType ∧ l'.Name = l.Name := by
  obtain ⟨s, hs⟩ := Option.isSome_iff_exists.mp hexp
  obtain ⟨token, hf, hd⟩ := dismantle_forged_publicLink lib a tm now now' l s hs
  refine ⟨token, _, hf, hd, jsonString_of_valid _ hutf.1, jsonString_of_valid _ hutf.2.1,
    jsonString_of_valid _ hutf.2.2.1, rfl, rfl, rfl, ?_, ?_, jsonString_of_valid _ hutf.2.2.2⟩
  · dsimp only
    rw [hmtime]
    exact toUint64_natCast a l.Mtime hm64
  · exact toInt32_intCast a l.ItemType hit.1 hit.2

/-- C1, amended, at the link of the source comment, issued at time 0 and dismantled at
time 3000, 600 seconds before the token expires. -/
theorem publicLink_roundtrip_nine_fields_witness :
    (exampleLib.marshalTime ((0 : Int) + 3600)).isSome = true ∧
    (3000 : Int) ≤ 0 + 3600 ∧
    (utf8Valid linkComment.Token = true ∧ utf8Valid linkComment.OwnerId = true ∧
      utf8Valid linkComment.Path = true ∧ utf8Valid linkComment.Name = true) ∧
    f64OfNat linkComment.Mtime = linkComment.Mtime ∧ linkComment.Mtime < 2 ^ 64 ∧
    (-(2 ^ 31) ≤ linkComment.ItemType ∧ linkComment.ItemType < 2 ^ 31) ∧
    ∃ token l', ForgePublicLinkToken exampleLib exampleManager 0 linkComment = .ok token ∧
      DismantlePublicLinkToken exampleLib exampleArch exampleManager 3000 token = .ok l' ∧
      l'.Token = linkComment.Token ∧ l'.OwnerId = linkComment.OwnerId ∧
      l'.Path = linkComment.Path ∧ l'.Protected = linkComment.Protected ∧
      l'.ReadOnly = linkComment.ReadOnly ∧ l'.DropOnly = linkComment.DropOnly ∧
      l'.Mtime = linkComment.Mtime ∧ l'.ItemType = linkComment.ItemType ∧
      l'.Name = linkComment.Name :=
  ⟨rfl, by decide, by decide, f64OfNat_of_lt _ (by norm_num [linkComment]),
   by norm_num [linkComment], by norm_num [linkComment],
   publicLink_roundtrip_nine_fields exampleLib exampleArch exampleManager 0 3000 linkComment rfl
    (by decide) (by decide)
    (f64OfNat_of_lt _ (by norm_num [linkComment])) (by norm_num [linkComment])
    (by norm_num [linkComment])⟩

/-! ## C2: user round trip -/

/-- C2 at the failing input: a user whose `Groups` is the nil slice is forged into a
token, and `DismantleUserToken` rejects that token at the time of issuance, because the
nil slice is written as JSON `null`. -/
theorem user_roundtrip_fails_for_nil_groups :
    ∃ token, ForgeUserToken exampleLib exampleManager 0 userNoGroups = .ok token ∧
      DismantleUserToken exampleLib exampleArch exampleManager 0 token =
        .error "groups claim is not a []interface\x7b\x7d" :=
  dismantle_forged_user exampleLib exampleArch exampleManager 0 0 userNoGroups _ rfl

/-- The round trip of a user whose `Groups` is set (empty or not) and whose strings are
well-formed UTF-8: the token dismantles to the same `AccountId`, `DisplayName` and
`Groups`. -/
theorem user_roundtrip_of_groups_set (lib : JwtLib) (a : Arch) (tm : tokenManager)
    (now now' : Int) (u : User) (gs : List GoString)
    (hexp : (lib.marshalTime (now + 3600)).isSome = true) (hg : u.Groups = some gs)
    (hutf : utf8Valid u.AccountId = true ∧ utf8Valid u.DisplayName = true ∧
      ∀ g ∈ gs, utf8Valid g = true) :
    ∃ token, ForgeUserToken lib tm now u = .ok token ∧
      DismantleUserToken lib a tm now' token = .ok u := by
  obtain ⟨s, hs⟩ := Option.isSome_iff_exists.mp hexp
  obtain ⟨token, hf, hd⟩ := dismantle_forged_user lib a tm now now' u s hs
  refine ⟨token, hf, ?_⟩
  have hgs : gs.map jsonString = gs := by
    conv_rhs => rw [← List.map_id gs]
    exact List.map_congr_left fun g hg' => jsonString_of_valid g (hutf.2.2 g hg')
  rw [hd, hg]
  dsimp only
  rw [jsonString_of_valid _ hutf.1, jsonString_of_valid _ hutf.2.1, hgs, ← hg]

/-! ## C3: expiry -/

theorem truncQ_3600 : truncQ 3600 = 3600 := by
  have := truncQ_natCast 3600
  simpa using this

/-- C3 at the failing input: tokens forged at time 0 are still accepted at time 3601 and
at time 4102444800, for both kinds of token; the `exp` claim they carry is a string, which
the time check does not compare with the clock. A token with the numeric claim
`exp = 3600` is rejected at time 3601. -/
theorem forged_tokens_never_expire :
    (∃ token, ForgeUserToken exampleLib exampleManager 0 userTwoGroups = .ok token ∧
      DismantleUserToken exampleLib exampleArch exampleManager 3601 token = .ok userTwoGroups ∧
      DismantleUserToken exampleLib exampleArch exampleManager 4102444800 token =
        .ok userTwoGroups) ∧
    (∃ token l, ForgePublicLinkToken exampleLib exampleManager 0 linkComment = .ok token ∧
      DismantlePublicLinkToken exampleLib exampleArch exampleManager 3601 token = .ok l ∧
      DismantlePublicLinkToken exampleLib exampleArch exampleManager 4102444800 token = .ok l) ∧
    wireVal exampleLib (.time (0 + 3600)) =
      some (.str (utf8 "2018-07-24T10:11:11.827901148+02:00")) ∧
    DismantleUserToken exampleLib exampleArch exampleManager 3601
      (signedToken exampleLib .HS256 (("exp", .num 3600) :: claimsNative) (utf8 "secret")) =
      .error "Token is expired" := by
  refine ⟨?_, ?_, rfl, ?_⟩
  · obtain ⟨t₁, hf₁, hd₁⟩ :=
      dismantle_forged_user exampleLib exampleArch exampleManager 0 3601 userTwoGroups _ rfl
    obtain ⟨t₂, hf₂, hd₂⟩ :=
      dismantle_forged_user exampleLib exampleArch exampleManager 0 4102444800 userTwoGroups _ rfl
    have ht : t₂ = t₁ := by
      rw [hf₁] at hf₂
      exact (Except.ok.inj hf₂).symm
    subst ht
    exact ⟨t₂, hf₁, hd₁, hd₂⟩
  · obtain ⟨t₁, hf₁, hd₁⟩ :=
      dismantle_forged_publicLink exampleLib exampleArch exampleManager 0 3601 linkComment _ rfl
    obtain ⟨t₂, hf₂, hd₂⟩ :=
      dismantle_forged_publicLink exampleLib exampleArch exampleManager 0 4102444800
        linkComment _ rfl
    have ht : t₂ = t₁ := by
      rw [hf₁] at hf₂
      exact (Except.ok.inj hf₂).symm
    subst ht
    exact ⟨t₂, _, hf₁, hd₁, hd₂⟩
  · simp only [DismantleUserToken]
    rw [jwtParse_signed exampleLib exampleArch 3601 _ (utf8 "secret") _ rfl]
    simp [MapClaimsValid, VerifyNotBefore, VerifyIssuedAt, VerifyExpiresAt, List.lookup,
      claimsNative, toInt64, truncQ_3600, verifyExp]


/-! ## C4: the key lookup of `DismantleUserToken` -/

/-- C4, as stated, fails: the same verifier hands out the RSA public key for a token that
declares RS256 and the symmetric secret for a token that declares HS256, and it accepts
both tokens. -/
theorem userKeyFunc_follows_declared_method :
    userKeyFunc exampleManager .RS256 = .ok (.rsaPublicKey (some ⟨3233, 17⟩)) ∧
    userKeyFunc exampleManager .HS256 = .ok (.bytes (utf8 "secret")) ∧
    (∃ u, DismantleUserToken exampleLib exampleArch exampleManager 0 tokenRS256 = .ok u) ∧
    (∃ u, DismantleUserToken exampleLib exampleArch exampleManager 0
      (signedToken exampleLib .HS256 claimsNative (utf8 "secret")) = .ok u) :=
  ⟨rfl, rfl, ⟨_, rfl⟩, ⟨_, rfl⟩⟩

/-- C4, amended: the key lookup of `DismantleUserToken` follows the method the token
declares. For RS256, RS384 and RS512 it supplies the RSA public key, for HS256, HS384 and
HS512 it supplies the symmetric secret, and for every other registered method (the ECDSA
and RSA-PSS methods and `none`) it fails, so that a token declaring such a method is
rejected with "unsupported token method" whatever its claims and signature. -/
theorem userKeyFunc_selects_key_by_method (lib : JwtLib) (a : Arch) (tm : tokenManager)
    (now : Int) (claims : MapClaims) (sig : Sig) :
    (∀ m ∈ [SigningMethod.RS256, .RS384, .RS512],
      userKeyFunc tm m = .ok (.rsaPublicKey tm.publicKey)) ∧
    (∀ m ∈ [SigningMethod.HS256, .HS384, .HS512],
      userKeyFunc tm m = .ok (.bytes tm.signSecret)) ∧
    (∀ m ∈ [SigningMethod.ES256, .ES384, .ES512, .PS256, .PS384, .PS512, .None],
      userKeyFunc tm m = .error "unsupported token method" ∧
      DismantleUserToken lib a tm now (.compact (some m.Alg) claims sig) =
        .error "unsupported token method") := by
  refine ⟨?_, ?_, ?_⟩
  · intro m hm
    simp only [List.mem_cons, List.mem_singleton, List.not_mem_nil, or_false] at hm
    rcases hm with h | h | h <;> subst h <;> rfl
  · intro m hm
    simp only [List.mem_cons, List.mem_singleton, List.not_mem_nil, or_false] at hm
    rcases hm with h | h | h <;> subst h <;> rfl
  · intro m hm
    simp only [List.mem_cons, List.mem_singleton, List.not_mem_nil, or_false] at hm
    rcases hm with h | h | h | h | h | h | h <;> subst h <;>
      exact ⟨rfl, by simp [DismantleUserToken, jwtParse, GetSigningMethod, SigningMethod.Alg,
        userKeyFunc, SigningMethod.isRSA, SigningMethod.isHMAC]⟩

/-- A token manager without a public key panics on a token that declares RS256: the key
lookup hands the nil key to `Verify`, which dereferences it. -/
theorem dismantleUser_nil_publicKey (lib : JwtLib) (a : Arch) (secret : GoString) (now : Int)
    (claims : MapClaims) (sig : Sig) :
    DismantleUserToken lib a ⟨secret, none⟩ now (.compact (some "RS256") claims sig) =
      .panicked "invalid memory address or nil pointer dereference" := by
  simp [DismantleUserToken, jwtParse, GetSigningMethod, userKeyFunc, SigningMethod.isRSA,
    SigningMethod.Verify]

/-! ## C5: the claims of a public-link token -/

theorem toUint64_1532362779 (a : Arch) : toUint64 a 1532362779 = 1532362779 := by
  have := toUint64_natCast a 1532362779 (by norm_num)
  simpa using this

theorem toInt32_zero (a : Arch) : toInt32 a 0 = 0 := by
  have := toInt32_intCast a 0 (by norm_num) (by norm_num)
  simpa using this

/-- C5 at the failing input: a validly signed token whose claim set has no `id` and no
`expires` is accepted, and so is one whose `id` is a boolean and whose `expires` is a
string; the link returned has the defaults `Id = ""` and `Expires = 0`. -/
theorem dismantlePublicLink_defaults_id_and_expires :
    claimsNoIdNoExpires.lookup "id" = none ∧ claimsNoIdNoExpires.lookup "expires" = none ∧
    DismantlePublicLinkToken exampleLib exampleArch exampleManager 0
      (signedToken exampleLib .HS256 claimsNoIdNoExpires (utf8 "secret")) = .ok
        { Token := utf8 "fgDsc2WD8F2qNfH", OwnerId := utf8 "gonzalhu", Id := [],
          Path := utf8 "/docs",
          Protected := false, Expires := 0, ReadOnly := true, DropOnly := false,
          Mtime := 1532362779, ItemType := 0, Name := utf8 "report" } ∧
    DismantlePublicLinkToken exampleLib exampleArch exampleManager 0
      (signedToken exampleLib .HS256
        (("id", .bool true) :: ("expires", .str (utf8 "never")) :: claimsNoIdNoExpires)
        (utf8 "secret")) = .ok
        { Token := utf8 "fgDsc2WD8F2qNfH", OwnerId := utf8 "gonzalhu", Id := [],
          Path := utf8 "/docs",
          Protected := false, Expires := 0, ReadOnly := true, DropOnly := false,
          Mtime := 1532362779, ItemType := 0, Name := utf8 "report" } := by
  refine ⟨rfl, rfl, ?_, ?_⟩
  · simp only [DismantlePublicLinkToken]
    rw [jwtParse_signed exampleLib exampleArch 0 _ (utf8 "secret") _ rfl]
    simp [MapClaimsValid, VerifyNotBefore, VerifyIssuedAt, VerifyExpiresAt, List.lookup,
      claimsNoIdNoExpires, extractPublicLink, toUint64_1532362779, toInt32_zero]
  · simp only [DismantlePublicLinkToken]
    rw [jwtParse_signed exampleLib exampleArch 0 _ (utf8 "secret") _ rfl]
    simp [MapClaimsValid, VerifyNotBefore, VerifyIssuedAt, VerifyExpiresAt, List.lookup,
      claimsNoIdNoExpires, extractPublicLink, toUint64_1532362779, toInt32_zero]

/-- The nine claims `DismantlePublicLinkToken` reads are mandatory and typed: when one of
them is absent or of another type, the extraction fails. -/
theorem extractPublicLink_mandatory (a : Arch) (claims : MapClaims)
    (h : (∀ s, claims.lookup "token" ≠ some (.str s)) ∨
         (∀ s, claims.lookup "owner" ≠ some (.str s)) ∨
         (∀ b, claims.lookup "read_only" ≠ some (.bool b)) ∨
         (∀ b, claims.lookup "drop_only" ≠ some (.bool b)) ∨
         (∀ s, claims.lookup "path" ≠ some (.str s)) ∨
         (∀ b, claims.lookup "protected" ≠ some (.bool b)) ∨
         (∀ x, claims.lookup "mtime" ≠ some (.num x)) ∨
         (∀ x, claims.lookup "item_type" ≠ some (.num x)) ∨
         (∀ s, claims.lookup "share_name" ≠ some (.str s))) :
    ∃ e, extractPublicLink a claims = .error e := by
  unfold extractPublicLink
  repeat' split
  all_goals first
    | exact ⟨_, rfl⟩
    | (exfalso; simp_all)


/-! ## C6: the native claim shape -/

theorem castGroups_all_str (raw : List JVal) (acc : List GoString)
    (h : ∀ g ∈ raw, ∃ s, g = JVal.str s) :
    ∃ xs, xs.map JVal.str = raw ∧ castGroups raw acc = .ok (acc ++ xs) := by
  induction raw generalizing acc with
  | nil => exact ⟨[], rfl, by simp [castGroups]⟩
  | cons g rest ih =>
    obtain ⟨s, hs⟩ := h g (List.mem_cons_self _ _)
    subst hs
    obtain ⟨xs, hxs, hc⟩ := ih (acc ++ [s]) (fun g hg => h g (List.mem_cons_of_mem _ hg))
    exact ⟨s :: xs, by simp [hxs], by simp [castGroups, hc]⟩

theorem castGroups_not_all_str (raw : List JVal) (acc : List GoString)
    (h : ∃ g ∈ raw, ∀ s, g ≠ JVal.str s) :
    castGroups raw acc = .error "group can not be casted to string" := by
  induction raw generalizing acc with
  | nil => simp at h
  | cons g rest ih =>
    cases g with
    | str s =>
      obtain ⟨g', hg', hne⟩ := h
      rcases List.mem_cons.mp hg' with heq | hmem
      · exact absurd heq (hne s)
      · simpa [castGroups] using ih (acc ++ [s]) ⟨g', hmem, hne⟩
    | _ => simp [castGroups]

theorem castGroups_ok_map (raw : List JVal) (acc gs : List GoString)
    (h : castGroups raw acc = .ok gs) : ∃ xs, xs.map JVal.str = raw ∧ gs = acc ++ xs := by
  by_cases hall : ∀ g ∈ raw, ∃ s, g = JVal.str s
  · obtain ⟨xs, hxs, hc⟩ := castGroups_all_str raw acc hall
    rw [hc] at h
    exact ⟨xs, hxs, (Except.ok.inj h).symm⟩
  · have hex : ∃ g ∈ raw, ∀ s, g ≠ JVal.str s := by
      by_contra hcon
      apply hall
      intro g hg
      by_contra hns
      exact hcon ⟨g, hg, fun s hs => hns ⟨s, hs⟩⟩
    rw [castGroups_not_all_str raw acc hex] at h
    cases h

/-- The claim extraction of `DismantleUserToken` on a parsed token without a `kc.identity`
object. -/
theorem dismantleUser_native_eq (lib : JwtLib) (a : Arch) (tm : tokenManager) (now : Int)
    (token : TokenString) (claims : MapClaims)
    (hparse : jwtParse lib a now (userKeyFunc tm) token = .ok claims)
    (hnative : ∀ kvs, claims.lookup "kc.identity" ≠ some (.obj kvs)) :
    DismantleUserToken lib a tm now token =
      match claims.lookup "account_id" with
      | some (.str accountID) =>
        match claims.lookup "groups" with
        | some (.arr rawGroups) =>
          match castGroups rawGroups [] with
          | .error e => .error e
          | .ok groups =>
            .ok { AccountId := accountID, Groups := some groups,
                  DisplayName := stringOrZero (claims.lookup "display_name") }
        | _ => .error "groups claim is not a []interface\x7b\x7d"
      | _ => .error "account_id claim is not a string" := by
  unfold DismantleUserToken
  rw [hparse]
  dsimp only
  split
  · rename_i kvs hk
    exact absurd hk (hnative kvs)
  · rfl

/-- C6: for a token that `jwt.Parse` accepts (valid signature, time claims in order) and
whose claims hold no `kc.identity` object, `DismantleUserToken` succeeds exactly when
`account_id` is a string and `groups` is a list of strings; on success `Groups` is that
list, in order, and `AccountId` is the `account_id` claim; when `groups` is absent, is a
single string, or has a non-string element, the call fails. -/
theorem dismantleUser_native_shape (lib : JwtLib) (a : Arch) (tm : tokenManager) (now : Int)
    (token : TokenString) (claims : MapClaims)
    (hparse : jwtParse lib a now (userKeyFunc tm) token = .ok claims)
    (hnative : ∀ kvs, claims.lookup "kc.identity" ≠ some (.obj kvs)) :
    ((∃ u, DismantleUserToken lib a tm now token = .ok u) ↔
      (∃ s, claims.lookup "account_id" = some (.str s)) ∧
      (∃ raw, claims.lookup "groups" = some (.arr raw) ∧ ∀ g ∈ raw, ∃ s, g = JVal.str s)) ∧
    (∀ u, DismantleUserToken lib a tm now token = .ok u →
      claims.lookup "account_id" = some (.str u.AccountId) ∧
      ∃ gs, u.Groups = some gs ∧ claims.lookup "groups" = some (.arr (gs.map JVal.str))) ∧
    (claims.lookup "groups" = none → ∃ e, DismantleUserToken lib a tm now token = .error e) ∧
    (∀ s, claims.lookup "groups" = some (.str s) →
      ∃ e, DismantleUserToken lib a tm now token = .error e) ∧
    (∀ raw, claims.lookup "groups" = some (.arr raw) → (∃ g ∈ raw, ∀ s, g ≠ JVal.str s) →
      ∃ e, DismantleUserToken lib a tm now token = .error e) := by
  have hD := dismantleUser_native_eq lib a tm now token claims hparse hnative
  rw [hD]
  refine ⟨⟨?_, ?_⟩, ?_, ?_, ?_, ?_⟩
  · rintro ⟨u, hu⟩
    split at hu
    · rename_i accountID hacc
      split at hu
      · rename_i rawGroups hgr
        split at hu
        · cases hu
        · rename_i groups hcast
          obtain ⟨xs, hxs, -⟩ := castGroups_ok_map rawGroups [] groups hcast
          refine ⟨⟨accountID, hacc⟩, rawGroups, hgr, ?_⟩
          intro g hg
          rw [← hxs] at hg
          obtain ⟨s, -, hs⟩ := List.mem_map.mp hg
          exact ⟨s, hs.symm⟩
      · cases hu
    · cases hu
  · rintro ⟨⟨s, hacc⟩, raw, hgr, hall⟩
    obtain ⟨xs, -, hc⟩ := castGroups_all_str raw [] hall
    simp only [hacc, hgr, hc]
    exact ⟨_, rfl⟩
  · intro u hu
    split at hu
    · rename_i accountID hacc
      split at hu
      · rename_i rawGroups hgr
        split at hu
        · cases hu
        · rename_i groups hcast
          obtain ⟨xs, hxs, hgs⟩ := castGroups_ok_map rawGroups [] groups hcast
          have hu' := GoResult.ok.inj hu
          subst hu'
          refine ⟨hacc, groups, rfl, ?_⟩
          rw [hgr, hgs, List.nil_append, hxs]
      · cases hu
    · cases hu
  · intro hnone
    rw [hnone]
    split <;> exact ⟨_, rfl⟩
  · intro s hs
    rw [hs]
    split <;> exact ⟨_, rfl⟩
  · intro raw hgr hex
    rw [hgr]
    split
    · simp only [castGroups_not_all_str raw [] hex]
      exact ⟨_, rfl⟩
    · exact ⟨_, rfl⟩

/-- C6 at a token with `account_id = "gonzalhu"` and `groups = ["staff", "it"]`. -/
theorem dismantleUser_native_shape_witness :
    jwtParse exampleLib exampleArch 0 (userKeyFunc exampleManager)
      (signedToken exampleLib .HS256 claimsNative (utf8 "secret")) = .ok claimsNative ∧
    (∀ kvs, claimsNative.lookup "kc.identity" ≠ some (.obj kvs)) ∧
    ((∃ u, DismantleUserToken exampleLib exampleArch exampleManager 0
        (signedToken exampleLib .HS256 claimsNative (utf8 "secret")) = .ok u) ↔
      (∃ s, claimsNative.lookup "account_id" = some (.str s)) ∧
      (∃ raw, claimsNative.lookup "groups" = some (.arr raw) ∧
        ∀ g ∈ raw, ∃ s, g = JVal.str s)) :=
  ⟨rfl, by simp [claimsNative, List.lookup],
   (dismantleUser_native_shape exampleLib exampleArch exampleManager 0
      (signedToken exampleLib .HS256 claimsNative (utf8 "secret")) claimsNative rfl
      (by simp [claimsNative, List.lookup])).1⟩


/-! ## C7: a link that is read-only and drop-only -/

/-- C7, as stated, fails: for a link with `ReadOnly = true` and `DropOnly = true`,
`ForgePublicLinkToken` returns a token, and that token dismantles to a link with both
flags set. -/
theorem forgePublicLink_accepts_contradictory_link :
    linkContradictory.ReadOnly = true ∧ linkContradictory.DropOnly = true ∧
    ∃ token l', ForgePublicLinkToken exampleLib exampleManager 0 linkContradictory = .ok token ∧
      DismantlePublicLinkToken exampleLib exampleArch exampleManager 0 token = .ok l' ∧
      l'.ReadOnly = true ∧ l'.DropOnly = true := by
  obtain ⟨token, hf, hd⟩ :=
    dismantle_forged_publicLink exampleLib exampleArch exampleManager 0 0 linkContradictory _ rfl
  exact ⟨rfl, rfl, token, _, hf, hd, rfl, rfl⟩

/-- C7, amended: `ForgePublicLinkToken` does not validate the capability flags. For every
link with `ReadOnly = true` and `DropOnly = true`, whenever the expiry timestamp can be
serialised, it returns a token, and that token dismantles, at any clock reading, to a
link with `ReadOnly = true` and `DropOnly = true`. -/
theorem forgePublicLink_keeps_both_flags (lib : JwtLib) (a : Arch) (tm : tokenManager)
    (now now' : Int) (pl : PublicLink)
    (hexp : (lib.marshalTime (now + 3600)).isSome = true)
    (hro : pl.ReadOnly = true) (hdo : pl.DropOnly = true) :
    ∃ token l', ForgePublicLinkToken lib tm now pl = .ok token ∧
      DismantlePublicLinkToken lib a tm now' token = .ok l' ∧
      l'.ReadOnly = true ∧ l'.DropOnly = true := by
  obtain ⟨s, hs⟩ := Option.isSome_iff_exists.mp hexp
  obtain ⟨token, hf, hd⟩ := dismantle_forged_publicLink lib a tm now now' pl s hs
  exact ⟨token, _, hf, hd, hro, hdo⟩

/-- C7, amended, at a link with both flags set, dismantled 60 seconds after issuance. -/
theorem forgePublicLink_keeps_both_flags_witness :
    (exampleLib.marshalTime ((1532362779 : Int) + 3600)).isSome = true ∧
    linkContradictory.ReadOnly = true ∧ linkContradictory.DropOnly = true ∧
    ∃ token l', ForgePublicLinkToken exampleLib exampleManager 1532362779 linkContradictory =
        .ok token ∧
      DismantlePublicLinkToken exampleLib exampleArch exampleManager 1532362839 token = .ok l' ∧
      l'.ReadOnly = true ∧ l'.DropOnly = true :=
  ⟨rfl, rfl, rfl,
   forgePublicLink_keeps_both_flags exampleLib exampleArch exampleManager 1532362779 1532362839
    linkContradictory rfl rfl rfl⟩

/-! ## C8: the numeric claims of a public-link token -/

/-- Truncation towards zero is the floor of a non-negative number. -/
theorem truncQ_of_nonneg (x : ℚ) (h : 0 ≤ x) : truncQ x = ⌊x⌋ := by
  unfold truncQ
  rw [Rat.floor_def, Int.tdiv_eq_ediv (Rat.num_nonneg.mpr h) (Int.natCast_nonneg _)]

/-- Truncation towards zero is the ceiling of a non-positive number. -/
theorem truncQ_of_nonpos (x : ℚ) (h : x ≤ 0) : truncQ x = ⌈x⌉ := by
  have h' : 0 ≤ -x := neg_nonneg.mpr h
  have := truncQ_of_nonneg (-x) h'
  unfold truncQ at this ⊢
  rw [Rat.num_neg_eq_neg_num, Rat.den_neg_eq_den, Int.neg_tdiv, Int.floor_neg] at this
  exact neg_injective this

/-- In range, `uint64(x)` is the floor of `x`. -/
theorem toUint64_of_range (a : Arch) (x : ℚ) (hlo : -1 < x) (hhi : x < 2 ^ 64) :
    toUint64 a x = ⌊x⌋₊ := by
  unfold toUint64
  rcases le_or_lt 0 x with h0 | h0
  · have hfl : ⌊x⌋ < 2 ^ 64 := by
      rw [Int.floor_lt]
      exact_mod_cast hhi
    rw [truncQ_of_nonneg x h0, if_pos ⟨Int.floor_nonneg.mpr h0, hfl⟩, Int.floor_toNat]
  · have hc : ⌈x⌉ = 0 := by
      rw [Int.ceil_eq_iff]
      constructor
      · simpa using hlo
      · simpa using h0.le
    rw [truncQ_of_nonpos x h0.le, hc, if_pos ⟨le_refl _, by norm_num⟩, Int.toNat_zero,
      Nat.floor_of_nonpos h0.le]

/-- In range, `int32(y)` is `y` rounded towards zero. -/
theorem toInt32_of_range (a : Arch) (y : ℚ) (hlo : -(2 ^ 31) - 1 < y) (hhi : y < 2 ^ 31) :
    toInt32 a y = if 0 ≤ y then ⌊y⌋ else ⌈y⌉ := by
  unfold toInt32
  rcases le_or_lt 0 y with h0 | h0
  · have hfl : ⌊y⌋ < 2 ^ 31 := by
      rw [Int.floor_lt]
      exact_mod_cast hhi
    have hnn : (0 : Int) ≤ ⌊y⌋ := Int.floor_nonneg.mpr h0
    rw [truncQ_of_nonneg y h0, if_pos ⟨by linarith, hfl⟩, if_pos h0]
  · have hle : ⌈y⌉ ≤ 0 := by
      rw [Int.ceil_le]
      simpa using h0.le
    have hge : -(2 ^ 31) - 1 < ⌈y⌉ := by
      rw [Int.lt_ceil]
      push_cast
      linarith
    rw [truncQ_of_nonpos y h0.le, if_pos ⟨by linarith, by linarith⟩, if_neg (not_le.mpr h0)]

theorem truncQ_three_halves : truncQ (3 / 2) = 1 := by
  norm_num [truncQ]; rfl

theorem truncQ_neg_five_halves : truncQ (-5 / 2) = -2 := by
  norm_num [truncQ]; rfl

/-- What `DismantlePublicLinkToken` returns for a parsed token whose nine claims have the
expected types. -/
theorem dismantlePublicLink_typed (lib : JwtLib) (a : Arch) (tm : tokenManager) (now : Int)
    (token : TokenString) (claims : MapClaims) (tok owner path name : GoString)
    (ro dro prot : Bool) (x y : ℚ)
    (hparse : jwtParse lib a now (publicLinkKeyFunc tm) token = .ok claims)
    (h₁ : claims.lookup "token" = some (.str tok))
    (h₂ : claims.lookup "owner" = some (.str owner))
    (h₃ : claims.lookup "read_only" = some (.bool ro))
    (h₄ : claims.lookup "drop_only" = some (.bool dro))
    (h₅ : claims.lookup "path" = some (.str path))
    (h₆ : claims.lookup "protected" = some (.bool prot))
    (h₇ : claims.lookup "mtime" = some (.num x))
    (h₈ : claims.lookup "item_type" = some (.num y))
    (h₉ : claims.lookup "share_name" = some (.str name)) :
    DismantlePublicLinkToken lib a tm now token = .ok
      { Token := tok, OwnerId := owner, Id := [], Path := path, Protected := prot,
        Expires := 0, ReadOnly := ro, DropOnly := dro, Mtime := toUint64 a x,
        ItemType := toInt32 a y, Name := name } := by
  simp only [DismantlePublicLinkToken, hparse, extractPublicLink, h₁, h₂, h₃, h₄, h₅, h₆, h₇,
    h₈, h₉]

/-- C8, as stated, fails: a validly signed token with `mtime = 1.5` and
`item_type = -2.5` is accepted, with `Mtime = 1` and `ItemType = -2`. -/
theorem dismantlePublicLink_truncates_fraction :
    DismantlePublicLinkToken exampleLib exampleArch exampleManager 0
      (signedToken exampleLib .HS256 claimsFractional (utf8 "secret")) = .ok
        { Token := utf8 "fgDsc2WD8F2qNfH", OwnerId := utf8 "gonzalhu", Id := [],
          Path := utf8 "/docs",
          Protected := false, Expires := 0, ReadOnly := true, DropOnly := false,
          Mtime := 1, ItemType := -2, Name := utf8 "report" } := by
  have h := dismantlePublicLink_typed exampleLib exampleArch exampleManager 0
    (signedToken exampleLib .HS256 claimsFractional (utf8 "secret")) claimsFractional
    (utf8 "fgDsc2WD8F2qNfH") (utf8 "gonzalhu") (utf8 "/docs") (utf8 "report")
    true false false (3 / 2) (-5 / 2)
    rfl rfl rfl rfl rfl rfl rfl rfl rfl rfl
  rw [h]
  have hm : toUint64 exampleArch (3 / 2) = 1 := by
    simp [toUint64, truncQ_three_halves]
  have hi : toInt32 exampleArch (-5 / 2) = -2 := by
    simp [toInt32, truncQ_neg_five_halves]
  rw [hm, hi]

/-- In range, `uint64(x)` is `x` rounded towards zero. -/
theorem toUint64_of_range_int (a : Arch) (x : ℚ) (hlo : -1 < x) (hhi : x < 2 ^ 64) :
    ((toUint64 a x : Nat) : Int) = if 0 ≤ x then ⌊x⌋ else ⌈x⌉ := by
  rw [toUint64_of_range a x hlo hhi]
  rcases le_or_lt 0 x with h0 | h0
  · rw [if_pos h0]
    exact Int.natCast_floor_eq_floor h0
  · have hc : ⌈x⌉ = 0 := by
      rw [Int.ceil_eq_iff]
      constructor
      · simpa using hlo
      · simpa using h0.le
    rw [if_neg (not_le.mpr h0), hc, Nat.floor_of_nonpos h0.le]
    rfl

/-- C8, amended: `DismantlePublicLinkToken` converts `mtime` and `item_type` by an
unchecked conversion that discards the fraction. For every token `jwt.Parse` accepts whose
nine read claims have the expected types, the call succeeds whatever numbers `mtime` and
`item_type` are; `Mtime` is `mtime` rounded towards zero when `-1 < mtime < 2 ^ 64` (so it
is 0 for `-1 < mtime < 0`), `ItemType` is `item_type` rounded towards zero when
`-2 ^ 31 - 1 < item_type < 2 ^ 31`, and so both equal the claim value exactly when it is an
integer in the range of the field. Rounding towards zero is the floor of a number that is
not negative and the ceiling of a negative one. -/
theorem dismantlePublicLink_numeric_unchecked (lib : JwtLib) (a : Arch) (tm : tokenManager)
    (now : Int) (token : TokenString) (claims : MapClaims) (tok owner path name : GoString)
    (ro dro prot : Bool) (x y : ℚ)
    (hparse : jwtParse lib a now (publicLinkKeyFunc tm) token = .ok claims)
    (h₁ : claims.lookup "token" = some (.str tok))
    (h₂ : claims.lookup "owner" = some (.str owner))
    (h₃ : claims.lookup "read_only" = some (.bool ro))
    (h₄ : claims.lookup "drop_only" = some (.bool dro))
    (h₅ : claims.lookup "path" = some (.str path))
    (h₆ : claims.lookup "protected" = some (.bool prot))
    (h₇ : claims.lookup "mtime" = some (.num x))
    (h₈ : claims.lookup "item_type" = some (.num y))
    (h₉ : claims.lookup "share_name" = some (.str name)) :
    ∃ l, DismantlePublicLinkToken lib a tm now token = .ok l ∧
      (-1 < x → x < 2 ^ 64 → ((l.Mtime : Nat) : Int) = if 0 ≤ x then ⌊x⌋ else ⌈x⌉) ∧
      (-(2 ^ 31) - 1 < y → y < 2 ^ 31 → l.ItemType = if 0 ≤ y then ⌊y⌋ else ⌈y⌉) ∧
      (∀ n : Nat, n < 2 ^ 64 → x = n → l.Mtime = n) ∧
      (∀ i : Int, -(2 ^ 31) ≤ i → i < 2 ^ 31 → y = i → l.ItemType = i) := by
  refine ⟨_, dismantlePublicLink_typed lib a tm now token claims tok owner path name ro dro
    prot x y hparse h₁ h₂ h₃ h₄ h₅ h₆ h₇ h₈ h₉, ?_, ?_, ?_, ?_⟩
  · intro hlo hhi
    dsimp only
    exact toUint64_of_range_int a x hlo hhi
  · intro hlo hhi
    dsimp only
    exact toInt32_of_range a y hlo hhi
  · intro n hn hx
    subst hx
    dsimp only
    exact toUint64_natCast a n hn
  · intro i hlo hhi hy
    subst hy
    dsimp only
    exact toInt32_intCast a i hlo hhi

/-- C8, amended, at three tokens: with `mtime = 1.5` and `item_type = -2.5` the link has
`Mtime = 1` and `ItemType = -2`; with `mtime = -0.5` and `item_type = 0.5` it has
`Mtime = 0` and `ItemType = 0`; with the integers `mtime = 1532362779` and `item_type = 0`
it has exactly these values. -/
theorem dismantlePublicLink_numeric_unchecked_witness :
    (jwtParse exampleLib exampleArch 0 (publicLinkKeyFunc exampleManager)
        (signedToken exampleLib .HS256 claimsFractional (utf8 "secret")) = .ok claimsFractional ∧
      claimsFractional.lookup "mtime" = some (.num (3 / 2)) ∧
      claimsFractional.lookup "item_type" = some (.num (-5 / 2)) ∧
      ∃ l, DismantlePublicLinkToken exampleLib exampleArch exampleManager 0
          (signedToken exampleLib .HS256 claimsFractional (utf8 "secret")) = .ok l ∧
        l.Mtime = 1 ∧ l.ItemType = -2) ∧
    (jwtParse exampleLib exampleArch 0 (publicLinkKeyFunc exampleManager)
        (signedToken exampleLib .HS256 claimsNegativeHalf (utf8 "secret")) =
        .ok claimsNegativeHalf ∧
      claimsNegativeHalf.lookup "mtime" = some (.num (-1 / 2)) ∧
      claimsNegativeHalf.lookup "item_type" = some (.num (1 / 2)) ∧
      ∃ l, DismantlePublicLinkToken exampleLib exampleArch exampleManager 0
          (signedToken exampleLib .HS256 claimsNegativeHalf (utf8 "secret")) = .ok l ∧
        l.Mtime = 0 ∧ l.ItemType = 0) ∧
    (jwtParse exampleLib exampleArch 0 (publicLinkKeyFunc exampleManager)
        (signedToken exampleLib .HS256 claimsNoIdNoExpires (utf8 "secret")) =
        .ok claimsNoIdNoExpires ∧
      claimsNoIdNoExpires.lookup "mtime" = some (.num 1532362779) ∧
      claimsNoIdNoExpires.lookup "item_type" = some (.num 0) ∧
      ∃ l, DismantlePublicLinkToken exampleLib exampleArch exampleManager 0
          (signedToken exampleLib .HS256 claimsNoIdNoExpires (utf8 "secret")) = .ok l ∧
        l.Mtime = 1532362779 ∧ l.ItemType = 0) := by
  refine ⟨⟨rfl, rfl, rfl, ?_⟩, ⟨rfl, rfl, rfl, ?_⟩, ⟨rfl, rfl, rfl, ?_⟩⟩
  · obtain ⟨l, hl, hm, hi, -, -⟩ :=
      dismantlePublicLink_numeric_unchecked exampleLib exampleArch exampleManager 0
        (signedToken exampleLib .HS256 claimsFractional (utf8 "secret")) claimsFractional
        (utf8 "fgDsc2WD8F2qNfH") (utf8 "gonzalhu") (utf8 "/docs") (utf8 "report")
        true false false (3 / 2) (-5 / 2) rfl rfl rfl rfl rfl rfl rfl rfl rfl rfl
    refine ⟨l, hl, ?_, ?_⟩
    · have h := hm (by norm_num) (by norm_num)
      have hf : ⌊(3 / 2 : ℚ)⌋ = 1 := by
        rw [Int.floor_eq_iff]; constructor <;> norm_num
      rw [if_pos (by norm_num), hf] at h
      exact_mod_cast h
    · have h := hi (by norm_num) (by norm_num)
      have hc : ⌈(-5 / 2 : ℚ)⌉ = -2 := by
        rw [Int.ceil_eq_iff]; constructor <;> norm_num
      rw [if_neg (by norm_num), hc] at h
      exact h
  · obtain ⟨l, hl, hm, hi, -, -⟩ :=
      dismantlePublicLink_numeric_unchecked exampleLib exampleArch exampleManager 0
        (signedToken exampleLib .HS256 claimsNegativeHalf (utf8 "secret")) claimsNegativeHalf
        (utf8 "fgDsc2WD8F2qNfH") (utf8 "gonzalhu") (utf8 "/docs") (utf8 "report")
        true false false (-1 / 2) (1 / 2) rfl rfl rfl rfl rfl rfl rfl rfl rfl rfl
    refine ⟨l, hl, ?_, ?_⟩
    · have h := hm (by norm_num) (by norm_num)
      have hc : ⌈(-1 / 2 : ℚ)⌉ = 0 := by
        rw [Int.ceil_eq_iff]; constructor <;> norm_num
      rw [if_neg (by norm_num), hc] at h
      exact_mod_cast h
    · have h := hi (by norm_num) (by norm_num)
      have hf : ⌊(1 / 2 : ℚ)⌋ = 0 := by
        rw [Int.floor_eq_iff]; constructor <;> norm_num
      rw [if_pos (by norm_num), hf] at h
      exact h
  · obtain ⟨l, hl, -, -, hm, hi⟩ :=
      dismantlePublicLink_numeric_unchecked exampleLib exampleArch exampleManager 0
        (signedToken exampleLib .HS256 claimsNoIdNoExpires (utf8 "secret")) claimsNoIdNoExpires
        (utf8 "fgDsc2WD8F2qNfH") (utf8 "gonzalhu") (utf8 "/docs") (utf8 "report")
        true false false 1532362779 0 rfl rfl rfl rfl rfl rfl rfl rfl rfl rfl
    exact ⟨l, hl, hm 1532362779 (by norm_num) (by norm_num),
      hi 0 (by norm_num) (by norm_num) (by norm_num)⟩

/-! ## C9: the federated claim shape -/

/-- C9: for a token that `jwt.Parse` accepts and whose claims hold a `kc.identity`
object, `DismantleUserToken` fails exactly when `kc.i.un` in that object is not a string;
otherwise it returns the user with `AccountId = kc.i.un`, `DisplayName = kc.i.dn` when that
is a string and the empty string otherwise, and empty `Groups`, whatever the other claims
of the token are. -/
theorem dismantleUser_federated_shape (lib : JwtLib) (a : Arch) (tm : tokenManager)
    (now : Int) (token : TokenString) (claims : MapClaims) (kvs : List (String × JVal))
    (hparse : jwtParse lib a now (userKeyFunc tm) token = .ok claims)
    (hfed : claims.lookup "kc.identity" = some (.obj kvs)) :
    ((∃ e, DismantleUserToken lib a tm now token = .error e) ↔
      ∀ s, kvs.lookup "kc.i.un" ≠ some (.str s)) ∧
    (∀ un, kvs.lookup "kc.i.un" = some (.str un) →
      DismantleUserToken lib a tm now token = .ok
        { AccountId := un,
          DisplayName :=
            match kvs.lookup "kc.i.dn" with
            | some (.str dn) => dn
            | _ => [],
          Groups := some [] }) := by
  have hD : DismantleUserToken lib a tm now token =
      match kvs.lookup "kc.i.un" with
      | some (.str accountID) =>
        .ok { AccountId := accountID, Groups := some [],
              DisplayName := stringOrZero (kvs.lookup "kc.i.dn") }
      | _ => .error "kc.identity kc.i.un claim is not a string" := by
    unfold DismantleUserToken
    rw [hparse]
    dsimp only
    rw [hfed]
  rw [hD]
  refine ⟨⟨?_, ?_⟩, ?_⟩
  · rintro ⟨e, he⟩ s hs
    rw [hs] at he
    cases he
  · intro hne
    split
    · rename_i accountID hacc
      exact absurd hacc (hne accountID)
    · exact ⟨_, rfl⟩
  · intro un hun
    rw [hun]
    rfl

/-- C9 at a token whose `kc.identity` holds `kc.i.un = "hugo"` and `kc.i.dn = "Hugo G"`,
next to a numeric `account_id` and a `groups` claim that is a single string. -/
theorem dismantleUser_federated_shape_witness :
    jwtParse exampleLib exampleArch 0 (userKeyFunc exampleManager)
      (signedToken exampleLib .HS256 claimsFederated (utf8 "secret")) = .ok claimsFederated ∧
    claimsFederated.lookup "kc.identity" =
      some (.obj [("kc.i.un", .str (utf8 "hugo")), ("kc.i.dn", .str (utf8 "Hugo G"))]) ∧
    DismantleUserToken exampleLib exampleArch exampleManager 0
      (signedToken exampleLib .HS256 claimsFederated (utf8 "secret")) =
      .ok { AccountId := utf8 "hugo", DisplayName := utf8 "Hugo G", Groups := some [] } :=
  ⟨rfl, rfl,
   (dismantleUser_federated_shape exampleLib exampleArch exampleManager 0
      (signedToken exampleLib .HS256 claimsFederated (utf8 "secret")) claimsFederated
      [("kc.i.un", .str (utf8 "hugo")), ("kc.i.dn", .str (utf8 "Hugo G"))] rfl rfl).2
      (utf8 "hugo") rfl⟩

/-! ## C10: the chunks of `upload` -/

/-- The three outcomes of `fdRead`. -/
theorem fdRead_cases (env : UploadEnv) (file : List UInt8) (reads pos bufLen : Nat) :
    fdRead env file reads pos bufLen = (0, .failed) ∨
    (fdRead env file reads pos bufLen = (0, .EOF) ∧ file.length ≤ pos) ∨
    (∃ n, fdRead env file reads pos bufLen = (n, .nil) ∧ n ≤ bufLen ∧
      n ≤ file.length - pos ∧ pos < file.length ∧ (0 < bufLen → 0 < n)) := by
  unfold fdRead
  by_cases hf : env.readFails reads = true
  · left; simp [hf]
  · by_cases hp : file.length ≤ pos
    · right; left; simp [hf, hp]
    · right; right
      refine ⟨min (max (env.readSize reads) 1) (min bufLen (file.length - pos)),
        by simp [hf, hp], ?_, ?_, by omega, ?_⟩
      · exact le_trans (min_le_right _ _) (min_le_left _ _)
      · exact le_trans (min_le_right _ _) (min_le_right _ _)
      · intro hb
        simp only [lt_min_iff]
        omega

/-- After a read of `n` bytes at position `pos` the buffer keeps its length, and its first
`n` bytes are the bytes of the file from `pos` on. -/
theorem buffer_after_read (file buffer : List UInt8) (pos n : Nat)
    (hn : n ≤ buffer.length) (hr : n ≤ file.length - pos) :
    ((file.drop pos).take n ++ buffer.drop n).length = buffer.length ∧
    ((file.drop pos).take n ++ buffer.drop n).take n = (file.drop pos).take n := by
  have hl : ((file.drop pos).take n).length = n := by
    simp [List.length_take, List.length_drop]
    omega
  constructor
  · simp [List.length_append, hl, List.length_drop]
    omega
  · rw [List.take_append_of_le_length (by omega)]
    simp

/-- Every chunk the loop hands to `stream.Send` carries the whole read buffer as `Data`,
whose first `Length` bytes are the bytes of the file from `Offset` on; `Length` is at
least 1 and at most the buffer size. Here the loop starts with `offset` equal to the file
position and the file is shorter than `2 ^ 64` bytes. -/
theorem uploadLoop_chunks (env : UploadEnv) (file : List UInt8) (txId : String) (fuel : Nat) :
    ∀ (reads pos : Nat) (buffer : List UInt8) (numChunks : Nat),
      file.length < 2 ^ 64 → pos ≤ file.length →
      ∀ dc ∈ (uploadLoop env file txId fuel reads pos buffer pos numChunks).2,
        dc.TxId = txId ∧ dc.Data.length = buffer.length ∧ 0 < dc.Length ∧
        dc.Length ≤ buffer.length ∧ dc.Offset + dc.Length ≤ file.length ∧
        dc.Data.take dc.Length = (file.drop dc.Offset).take dc.Length := by
  induction fuel with
  | zero =>
    intro reads pos buffer numChunks _ _ dc hdc
    simp [uploadLoop] at hdc
  | succ fuel ih =>
    intro reads pos buffer numChunks hsize hpos dc hdc
    rcases fdRead_cases env file reads pos buffer.length with h | ⟨h, -⟩ | ⟨n, h, hn, hr, hlt, -⟩
    · simp [uploadLoop, h] at hdc
    · simp [uploadLoop, h] at hdc
    · obtain ⟨hlen, htake⟩ := buffer_after_read file buffer pos n hn hr
      by_cases hn0 : 0 < n
      · have hmod : (pos + n) % 2 ^ 64 = pos + n := Nat.mod_eq_of_lt (by omega)
        have hfirst : ∀ c : TxChunk,
            c = { TxId := txId, Length := n,
                  Data := (file.drop pos).take n ++ buffer.drop n, Offset := pos } →
            c.TxId = txId ∧ c.Data.length = buffer.length ∧ 0 < c.Length ∧
            c.Length ≤ buffer.length ∧ c.Offset + c.Length ≤ file.length ∧
            c.Data.take c.Length = (file.drop c.Offset).take c.Length := by
          intro c hc
          subst hc
          exact ⟨rfl, hlen, hn0, hn, by dsimp only; omega, htake⟩
        by_cases hs : env.sendFails numChunks = true
        · simp [uploadLoop, h, hn0, hs] at hdc
          exact hfirst dc hdc
        · simp only [uploadLoop, h, hn0, hs, if_true, Bool.false_eq_true, if_false, hmod,
            List.mem_cons] at hdc
          rcases hdc with hdc | hdc
          · exact hfirst dc hdc
          · have := ih (reads + 1) (pos + n) _ _ hsize (by omega) dc hdc
            rw [hlen] at this
            exact this
      · have hz : n = 0 := by omega
        subst hz
        simp only [uploadLoop, h, lt_irrefl, if_false, List.take_zero, List.nil_append,
          List.drop_zero] at hdc
        exact ih (reads + 1) pos buffer numChunks hsize hpos dc hdc


theorem bufferSize_eq : bufferSize = 3145728 := by
  norm_num [bufferSize]

/-- The loop on a one-byte file, read in one piece and sent without failure: one chunk of
`Length` 1 whose `Data` is the whole buffer. -/
theorem uploadLoop_one_byte (env : UploadEnv) (b : UInt8) (txId : String)
    (buffer : List UInt8) (hb : 0 < buffer.length)
    (hr : ∀ i, env.readFails i = false) (hs : ∀ i, env.sendFails i = false) :
    uploadLoop env [b] txId 2 0 0 buffer 0 0 =
      (.done, [{ TxId := txId, Length := 1, Data := b :: buffer.drop 1, Offset := 0 }]) := by
  have h1 : min (max (env.readSize 0) 1) (min buffer.length (1 - 0)) = 1 := by omega
  have hread0 : fdRead env [b] 0 0 buffer.length = (1, .nil) := by
    simp only [fdRead, hr, List.length_singleton, h1]
    simp
  have hlen : (([b].drop 0).take 1 ++ buffer.drop 1).length = buffer.length := by
    simp only [List.drop_zero, List.take_one, List.head?_cons, Option.toList_some,
      List.length_append, List.length_singleton, List.length_drop]
    omega
  have hread1 : fdRead env [b] (0 + 1) (0 + 1)
      (([b].drop 0).take 1 ++ buffer.drop 1).length = (0, .EOF) := by
    simp [fdRead, hr]
  rw [uploadLoop]
  simp only [hread0, hs]
  rw [uploadLoop]
  simp only [hread1]
  simp

/-- The run of `upload` in which nothing fails: the calls are `StartWriteTx`, the opening
of the stream, one `Send` per chunk of the loop, `CloseAndRecv` and `FinishWriteTx` with
the target path and the transaction id. -/
theorem upload_of_ok (env : UploadEnv) (path localFile : String) (file : List UInt8)
    (txId : String) (chunks : List TxChunk)
    (hp : path ≠ "") (hl : localFile ≠ "") (hopen : env.openFile localFile = some file)
    (hc : env.storageClient = true) (hst : env.startWriteTx = some txId)
    (hw : env.writeChunk = true)
    (hloop : uploadLoop env file txId (file.length + 1) 0 0 (List.replicate bufferSize 0) 0 0 =
      (.done, chunks))
    (hclose : env.closeAndRecv = true) (hfin : env.finishWriteTx path txId = true) :
    upload env [path, localFile] =
      (true, [Call.StartWriteTx, Call.WriteChunk] ++ chunks.map Call.Send ++
        [Call.CloseAndRecv, Call.FinishWriteTx path txId]) := by
  simp only [upload, if_neg hp, if_neg hl, hopen, hc, hst, hw, hloop, hclose, hfin]
  simp

/-- C10 at the failing input: for a local file of one byte, `upload` sends one chunk with
`Length = 1` and `Offset = 0` whose `Data` holds 3145728 bytes, the whole read buffer; the
first of them is the byte of the file. -/
theorem upload_one_byte_sends_whole_buffer :
    ∃ dc, upload envOneByte ["/home/report.txt", "report.txt"] =
        (true, [.StartWriteTx, .WriteChunk, .Send dc, .CloseAndRecv,
                .FinishWriteTx "/home/report.txt" "tx-1"]) ∧
      dc.Length = 1 ∧ dc.Offset = 0 ∧ dc.Data.length = 3145728 ∧ dc.Data.take 1 = [97] := by
  have hlen : (List.replicate bufferSize (0 : UInt8)).length = bufferSize :=
    List.length_replicate _ _
  have hpos : 0 < (List.replicate bufferSize (0 : UInt8)).length := by
    rw [hlen, bufferSize_eq]; norm_num
  have hloop := uploadLoop_one_byte envOneByte 97 "tx-1" (List.replicate bufferSize 0) hpos
    (fun _ => rfl) (fun _ => rfl)
  refine ⟨{ TxId := "tx-1", Length := 1, Data := 97 :: (List.replicate bufferSize 0).drop 1,
            Offset := 0 }, ?_, rfl, rfl, ?_, rfl⟩
  · exact upload_of_ok envOneByte "/home/report.txt" "report.txt" [97] "tx-1" _
      (by decide) (by decide) rfl rfl rfl rfl hloop rfl rfl
  · rw [List.length_cons, List.length_drop, hlen, bufferSize_eq]


/-- The chunks of a whole run of `upload`, whatever fails on the way: every chunk handed to
`stream.Send` carries 3145728 bytes of `Data`, of which the first `Length` are the bytes
of the local file from `Offset` on. -/
theorem upload_chunks (env : UploadEnv) (path localFile : String) (rest : List String)
    (file : List UInt8) (hopen : env.openFile localFile = some file)
    (hsize : file.length < 2 ^ 64) (dc : TxChunk)
    (hdc : Call.Send dc ∈ (upload env (path :: localFile :: rest)).2) :
    dc.Data.length = 3145728 ∧ 0 < dc.Length ∧ dc.Length ≤ 3145728 ∧
    dc.Data.take dc.Length = (file.drop dc.Offset).take dc.Length := by
  have hloop := uploadLoop_chunks env file
  have hlen : (List.replicate bufferSize (0 : UInt8)).length = 3145728 := by
    rw [List.length_replicate, bufferSize_eq]
  have key : ∀ txId, dc ∈ (uploadLoop env file txId (file.length + 1) 0 0
      (List.replicate bufferSize 0) 0 0).2 →
      dc.Data.length = 3145728 ∧ 0 < dc.Length ∧ dc.Length ≤ 3145728 ∧
      dc.Data.take dc.Length = (file.drop dc.Offset).take dc.Length := by
    intro txId hmem
    have h := hloop txId (file.length + 1) 0 0 (List.replicate bufferSize 0) 0 hsize
      (Nat.zero_le _) dc hmem
    rw [hlen] at h
    exact ⟨h.2.1, h.2.2.1, h.2.2.2.1, h.2.2.2.2.2⟩
  by_cases hp : path = ""
  · simp [upload, hp] at hdc
  by_cases hl : localFile = ""
  · simp [upload, hp, hl] at hdc
  by_cases hc : env.storageClient = false
  · simp [upload, hp, hl, hopen, hc] at hdc
  cases hst : env.startWriteTx with
  | none => simp [upload, hp, hl, hopen, hc, hst] at hdc
  | some txId =>
    by_cases hw : env.writeChunk = false
    · simp [upload, hp, hl, hopen, hc, hst, hw] at hdc
    · apply key txId
      simp only [upload, if_neg hp, if_neg hl, hopen, if_neg hc, hst, if_neg hw] at hdc
      split at hdc
      · split_ifs at hdc <;> simpa using hdc
      · simpa using hdc


/-! ## C11: the chunk sequence of `upload` -/

/-- A read that does not fail is at the end of the file, or delivers between one byte and
the buffer. -/
theorem fdRead_of_ok (env : UploadEnv) (file : List UInt8) (reads pos bufLen : Nat)
    (hr : env.readFails reads = false) :
    (file.length ≤ pos ∧ fdRead env file reads pos bufLen = (0, .EOF)) ∨
    (pos < file.length ∧ ∃ n, fdRead env file reads pos bufLen = (n, .nil) ∧ n ≤ bufLen ∧
      n ≤ file.length - pos ∧ (0 < bufLen → 0 < n)) := by
  rcases fdRead_cases env file reads pos bufLen with h | ⟨h, hle⟩ | ⟨n, h, h₁, h₂, h₃, h₄⟩
  · simp [fdRead, hr] at h
    split at h <;> simp at h
  · exact Or.inl ⟨hle, h⟩
  · exact Or.inr ⟨h₃, n, h, h₁, h₂, h₄⟩

/-- When no read and no send fails, the loop runs to the end of the file: it ends at
`io.EOF`, its first chunk starts at the file position, each further chunk starts where the
one before ends, further on in the file, and the lengths add up to what was left of the file. -/
theorem uploadLoop_sequence (env : UploadEnv) (file : List UInt8) (txId : String)
    (hr : ∀ i, env.readFails i = false) (hs : ∀ i, env.sendFails i = false)
    (hsize : file.length < 2 ^ 64) (fuel : Nat) :
    ∀ (reads pos : Nat) (buffer : List UInt8) (numChunks : Nat),
      0 < buffer.length → pos ≤ file.length → file.length - pos < fuel →
      (uploadLoop env file txId fuel reads pos buffer pos numChunks).1 = .done ∧
      (∀ dc ∈ (uploadLoop env file txId fuel reads pos buffer pos numChunks).2.head?,
        dc.Offset = pos) ∧
      (uploadLoop env file txId fuel reads pos buffer pos numChunks).2.Chain'
        (fun a b => b.Offset = a.Offset + a.Length ∧ a.Offset < b.Offset) ∧
      ((uploadLoop env file txId fuel reads pos buffer pos numChunks).2.map
        TxChunk.Length).sum = file.length - pos := by
  induction fuel with
  | zero =>
    intro reads pos buffer numChunks _ _ hf
    omega
  | succ fuel ih =>
    intro reads pos buffer numChunks hb hpos hf
    rcases fdRead_of_ok env file reads pos buffer.length (hr reads) with
      ⟨hle, h⟩ | ⟨hlt, n, h, hn, hrem, hn0⟩
    · have hz : file.length - pos = 0 := by omega
      simp [uploadLoop, h, hz]
    · have hn0' : 0 < n := hn0 hb
      obtain ⟨hlen, -⟩ := buffer_after_read file buffer pos n hn hrem
      have hmod : (pos + n) % 2 ^ 64 = pos + n := Nat.mod_eq_of_lt (by omega)
      have hb' : 0 < ((file.drop pos).take n ++ buffer.drop n).length := by
        rw [hlen]; exact hb
      obtain ⟨h1, h2, h3, h4⟩ := ih (reads + 1) (pos + n)
        ((file.drop pos).take n ++ buffer.drop n) ((numChunks + 1) % 2 ^ 64) hb'
        (by omega) (by omega)
      simp only [uploadLoop, h, hn0', hs, if_true, Bool.false_eq_true, if_false, hmod]
      refine ⟨h1, ?_, ?_, ?_⟩
      · intro dc hdc
        simp only [List.head?_cons, Option.mem_def, Option.some.injEq] at hdc
        subst hdc
        rfl
      · rw [List.chain'_cons']
        refine ⟨?_, h3⟩
        intro y hy
        have := h2 y hy
        dsimp only
        omega
      · simp only [List.map_cons, List.sum_cons, h4]
        omega

/-- C11: when the local file opens and is shorter than `2 ^ 64` bytes, `StartWriteTx`
returns `txId`, the stream opens, and no read and no send fails (every read before the end
of the file then delivers between 1 and 3 MiB), the calls of `upload` are `StartWriteTx`,
the opening of the stream, one `Send` per chunk and `CloseAndRecv`, where every chunk
carries `txId` and a `Length` between 1 and 3 MiB, the first chunk has `Offset` 0, every
later chunk starts where the one before ends, which is further on, and the lengths add up
to the size of the file. For the empty file there is no chunk. When `CloseAndRecv`
succeeds, the one call after it is `FinishWriteTx` with the target path and `txId`. -/
theorem upload_chunk_sequence (env : UploadEnv) (path localFile : String)
    (rest : List String) (file : List UInt8) (txId : String)
    (hp : path ≠ "") (hl : localFile ≠ "") (hopen : env.openFile localFile = some file)
    (hsize : file.length < 2 ^ 64) (hc : env.storageClient = true)
    (hst : env.startWriteTx = some txId) (hw : env.writeChunk = true)
    (hr : ∀ i, env.readFails i = false) (hs : ∀ i, env.sendFails i = false) :
    ∃ (chunks : List TxChunk) (tail : List Call),
      (upload env (path :: localFile :: rest)).2 =
        [Call.StartWriteTx, Call.WriteChunk] ++ chunks.map Call.Send ++
          Call.CloseAndRecv :: tail ∧
      (∀ dc ∈ chunks, dc.TxId = txId ∧ 0 < dc.Length ∧ dc.Length ≤ 3 * 1024 * 1024) ∧
      (∀ dc ∈ chunks.head?, dc.Offset = 0) ∧
      chunks.Chain' (fun a b => b.Offset = a.Offset + a.Length ∧ a.Offset < b.Offset) ∧
      (chunks.map TxChunk.Length).sum = file.length ∧
      (file = [] → chunks = []) ∧
      (env.closeAndRecv = true → tail = [Call.FinishWriteTx path txId]) := by
  have hlen : (List.replicate bufferSize (0 : UInt8)).length = 3145728 := by
    rw [List.length_replicate, bufferSize_eq]
  obtain ⟨h1, h2, h3, h4⟩ := uploadLoop_sequence env file txId hr hs hsize (file.length + 1)
    0 0 (List.replicate bufferSize 0) 0 (by rw [hlen]; norm_num) (Nat.zero_le _) (by omega)
  have hch := uploadLoop_chunks env file txId (file.length + 1) 0 0
    (List.replicate bufferSize 0) 0 hsize (Nat.zero_le _)
  generalize hloop : uploadLoop env file txId (file.length + 1) 0 0
    (List.replicate bufferSize 0) 0 0 = r at h1 h2 h3 h4 hch
  have hall : ∀ dc ∈ r.2, dc.TxId = txId ∧ 0 < dc.Length ∧ dc.Length ≤ 3 * 1024 * 1024 := by
    intro dc hdc
    have := hch dc hdc
    rw [hlen] at this
    exact ⟨this.1, this.2.2.1, this.2.2.2.1⟩
  have hempty : file = [] → r.2 = [] := by
    intro hf
    subst hf
    cases hr2 : r.2 with
    | nil => rfl
    | cons c cs =>
      have hc0 := (hall c (by rw [hr2]; exact List.mem_cons_self _ _)).2.1
      rw [hr2] at h4
      simp only [List.map_cons, List.sum_cons, List.length_nil] at h4
      omega
  refine ⟨r.2, if env.closeAndRecv = true then [Call.FinishWriteTx path txId] else [],
    ?_, hall, h2, h3, by simpa using h4, hempty, fun h => by simp [h]⟩
  simp only [upload, if_neg hp, if_neg hl, hopen, hc, hst, hw, hloop, h1]
  by_cases hcl : env.closeAndRecv = true
  · by_cases hfin : env.finishWriteTx path txId = true <;> simp [hcl, hfin]
  · simp [hcl]

/-- One round of the loop in which the read delivers `n > 0` bytes and the send succeeds. -/
theorem uploadLoop_step (env : UploadEnv) (file : List UInt8) (txId : String)
    (fuel reads pos : Nat) (buffer : List UInt8) (offset numChunks n : Nat)
    (hread : fdRead env file reads pos buffer.length = (n, .nil)) (hn : 0 < n)
    (hs : env.sendFails numChunks = false) :
    uploadLoop env file txId (fuel + 1) reads pos buffer offset numChunks =
      ((uploadLoop env file txId fuel (reads + 1) (pos + n)
          ((file.drop pos).take n ++ buffer.drop n) ((offset + n) % 2 ^ 64)
          ((numChunks + 1) % 2 ^ 64)).1,
       { TxId := txId, Length := n, Data := (file.drop pos).take n ++ buffer.drop n,
         Offset := offset } ::
        (uploadLoop env file txId fuel (reads + 1) (pos + n)
          ((file.drop pos).take n ++ buffer.drop n) ((offset + n) % 2 ^ 64)
          ((numChunks + 1) % 2 ^ 64)).2) := by
  rw [uploadLoop]
  simp only [hread, hn, hs, if_true, Bool.false_eq_true, if_false]

/-- The round of the loop in which the read is at the end of the file. -/
theorem uploadLoop_eof (env : UploadEnv) (file : List UInt8) (txId : String)
    (fuel reads pos : Nat) (buffer : List UInt8) (offset numChunks : Nat)
    (hread : fdRead env file reads pos buffer.length = (0, .EOF)) :
    uploadLoop env file txId (fuel + 1) reads pos buffer offset numChunks = (.done, []) := by
  rw [uploadLoop]
  simp only [hread, lt_irrefl, if_false]

/-- The loop on a two-byte file that is read one byte at a time: two chunks of `Length` 1,
at `Offset` 0 and at `Offset` 1. -/
theorem uploadLoop_two_bytes (env : UploadEnv) (b₀ b₁ : UInt8) (txId : String)
    (buffer : List UInt8) (hb : 0 < buffer.length) (hsz : ∀ i, env.readSize i = 1)
    (hr : ∀ i, env.readFails i = false) (hs : ∀ i, env.sendFails i = false) :
    uploadLoop env [b₀, b₁] txId 3 0 0 buffer 0 0 =
      (.done, [{ TxId := txId, Length := 1, Data := b₀ :: buffer.drop 1, Offset := 0 },
               { TxId := txId, Length := 1, Data := b₁ :: buffer.drop 1, Offset := 1 }]) := by
  have hlen : (b₀ :: buffer.drop 1).length = buffer.length := by
    simp only [List.length_cons, List.length_drop]; omega
  have hread0 : fdRead env [b₀, b₁] 0 0 buffer.length = (1, .nil) := by
    have h1 : min (max 1 1) (min buffer.length (2 - 0)) = 1 := by omega
    simp [fdRead, hr, hsz, h1]
    omega
  have hread1 : fdRead env [b₀, b₁] 1 1 (b₀ :: buffer.drop 1).length = (1, .nil) := by
    have h1 : min (max 1 1) (min buffer.length (2 - 1)) = 1 := by omega
    rw [hlen]
    simp [fdRead, hr, hsz, h1]
    omega
  have hread2 : fdRead env [b₀, b₁] 2 2 (b₁ :: buffer.drop 1).length = (0, .EOF) := by
    simp [fdRead, hr]
  have hbuf0 : ([b₀, b₁].drop 0).take 1 ++ buffer.drop 1 = b₀ :: buffer.drop 1 := rfl
  have hbuf1 : ([b₀, b₁].drop 1).take 1 ++ (b₀ :: buffer.drop 1).drop 1 =
      b₁ :: buffer.drop 1 := rfl
  rw [uploadLoop_step env [b₀, b₁] txId 2 0 0 buffer 0 0 1 hread0 (by decide) (hs 0), hbuf0]
  have hm1 : (0 + 1) % 2 ^ 64 = 1 := by norm_num
  rw [hm1]
  rw [uploadLoop_step env [b₀, b₁] txId 1 (0 + 1) (0 + 1) (b₀ :: buffer.drop 1) 1 1 1 hread1
    (by decide) (hs 1), hbuf1]
  rw [uploadLoop_eof env [b₀, b₁] txId 0 (0 + 1 + 1) (0 + 1 + 1) (b₁ :: buffer.drop 1) _ _
    hread2]

/-- C11 at two runs. On a two-byte file that is read one byte at a time `upload` sends two
chunks: both carry the transaction id, the first has `Offset` 0 and `Length` 1, the second
has `Offset` 1, the first chunk's `Offset` plus its `Length`, and `Length` 1, the lengths
add up to 2, and `FinishWriteTx` follows `CloseAndRecv`. On an empty file it sends no
chunk and still calls `FinishWriteTx` with the target path and the transaction id. -/
theorem upload_chunk_sequence_witness :
    (envTwoBytes.openFile "report.txt" = some [104, 105] ∧
      envTwoBytes.startWriteTx = some "tx-2" ∧
      (∀ i, envTwoBytes.readFails i = false) ∧ (∀ i, envTwoBytes.sendFails i = false) ∧
      ∃ c₀ c₁ : TxChunk,
        (upload envTwoBytes ["/home/report.txt", "report.txt"]).2 =
          [.StartWriteTx, .WriteChunk, .Send c₀, .Send c₁, .CloseAndRecv,
           .FinishWriteTx "/home/report.txt" "tx-2"] ∧
        c₀.TxId = "tx-2" ∧ c₁.TxId = "tx-2" ∧
        c₀.Offset = 0 ∧ c₀.Length = 1 ∧ c₁.Offset = 1 ∧ c₁.Length = 1 ∧
        c₁.Offset = c₀.Offset + c₀.Length ∧ c₀.Offset < c₁.Offset ∧
        c₀.Length ≤ 3 * 1024 * 1024 ∧ c₁.Length ≤ 3 * 1024 * 1024 ∧
        c₀.Length + c₁.Length = [(104 : UInt8), 105].length) ∧
    (envEmptyFile.openFile "empty.txt" = some [] ∧
      envEmptyFile.startWriteTx = some "tx-0" ∧
      (upload envEmptyFile ["/home/empty.txt", "empty.txt"]).2 =
        [.StartWriteTx, .WriteChunk, .CloseAndRecv,
         .FinishWriteTx "/home/empty.txt" "tx-0"]) := by
  constructor
  · refine ⟨rfl, rfl, fun _ => rfl, fun _ => rfl, ?_⟩
    obtain ⟨chunks, tail, hcalls, hall, hhead, hchain, hsum, -, hfin⟩ :=
      upload_chunk_sequence envTwoBytes "/home/report.txt" "report.txt" [] [104, 105] "tx-2"
        (by decide) (by decide) rfl (by norm_num) rfl rfl rfl (fun _ => rfl) (fun _ => rfl)
    have hlen : 0 < (List.replicate bufferSize (0 : UInt8)).length := by
      rw [List.length_replicate, bufferSize_eq]; norm_num
    have hloop := uploadLoop_two_bytes envTwoBytes 104 105 "tx-2" (List.replicate bufferSize 0)
      hlen (fun _ => rfl) (fun _ => rfl) (fun _ => rfl)
    have hrun := upload_of_ok envTwoBytes "/home/report.txt" "report.txt" [104, 105] "tx-2" _
      (by decide) (by decide) rfl rfl rfl rfl hloop rfl rfl
    have htail := hfin rfl
    subst htail
    rw [hrun] at hcalls
    rcases chunks with _ | ⟨c₀, _ | ⟨c₁, _ | ⟨c₂, cs⟩⟩⟩
    · simp at hcalls
    · simp at hcalls
    · simp only [List.map_cons, List.map_nil, List.cons_append, List.nil_append,
        List.cons.injEq, Call.Send.injEq, true_and, and_true] at hcalls
      obtain ⟨h₀, h₁⟩ := hcalls
      have hc₀ := hall c₀ (by simp)
      have hc₁ := hall c₁ (by simp)
      have hoff := hhead c₀ (by simp)
      have hch : c₁.Offset = c₀.Offset + c₀.Length ∧ c₀.Offset < c₁.Offset := by
        simpa using hchain
      have hl₀ : c₀.Length = 1 := by rw [← h₀]
      have hl₁ : c₁.Length = 1 := by rw [← h₁]
      have ho₁ : c₁.Offset = 1 := by rw [← h₁]
      refine ⟨c₀, c₁, ?_, hc₀.1, hc₁.1, hoff, hl₀, ho₁, hl₁, hch.1, hch.2, hc₀.2.2,
        hc₁.2.2, by simpa using hsum⟩
      rw [hrun, ← h₀, ← h₁]
      rfl
    · simp at hcalls
  · refine ⟨rfl, rfl, ?_⟩
    obtain ⟨chunks, tail, hcalls, -, -, -, -, hempty, hfin⟩ :=
      upload_chunk_sequence envEmptyFile "/home/empty.txt" "empty.txt" [] [] "tx-0"
        (by decide) (by decide) rfl (by norm_num) rfl rfl rfl (fun _ => rfl) (fun _ => rfl)
    rw [hcalls, hempty rfl, hfin rfl]
    rfl

/-! ## C12: the content `download` and `downloadRevision` write -/

theorem int64OfUint64_of_lt (n : Nat) (h : n < 2 ^ 63) : int64OfUint64 n = n := by
  have h' : n % 2 ^ 64 = n := Nat.mod_eq_of_lt (by omega)
  unfold int64OfUint64
  rw [h', if_pos h]

/-- A copy of `n` bytes out of at least `n` bytes of data, with no write failure. -/
theorem copyN_of_le (data : List UInt8) (n : Nat) (h0 : 0 < n) (hle : n ≤ data.length)
    (h63 : data.length < 2 ^ 63) :
    copyN none data (int64OfUint64 n) = (data.take n, true) := by
  rw [int64OfUint64_of_lt n (by omega)]
  have hpos : ¬ ((n : Int) ≤ 0) := by omega
  simp [copyN, hpos, hle]

theorem streamOf_cons (c : DataChunk) (cs : List DataChunk) :
    streamOf (c :: cs) = { dc := some c, err := .nil } :: streamOf cs := rfl

/-- The loop of `download` on a stream that delivers `chunks` and ends. -/
theorem downloadLoop_streamOf (env : DownloadEnv) (hw : ∀ i, env.writeFails i = none)
    (chunks : List DataChunk) (hdata : ∀ c ∈ chunks, c.Length ≤ c.Data.length)
    (hlen : ∀ c ∈ chunks, c.Data.length < 2 ^ 63) :
    ∀ (writes : Nat) (content : List UInt8),
      downloadLoop env (streamOf chunks) writes content =
        (.ok, content ++ (chunks.map fun c => c.Data.take c.Length).flatten) := by
  induction chunks with
  | nil =>
    intro writes content
    simp [streamOf, downloadLoop]
  | cons c cs ih =>
    intro writes content
    have ih' := ih (fun c' hc' => hdata c' (List.mem_cons_of_mem _ hc'))
      (fun c' hc' => hlen c' (List.mem_cons_of_mem _ hc'))
    have hd := hdata c (List.mem_cons_self _ _)
    have hl := hlen c (List.mem_cons_self _ _)
    rw [streamOf_cons, downloadLoop]
    by_cases h0 : 0 < c.Length
    · simp only [h0, if_true, hw, copyN_of_le c.Data c.Length h0 hd hl]
      simp [ih']
    · have hz : c.Length = 0 := by omega
      simp [h0, hz, ih']

/-- The loop of `downloadRevision` on a stream that delivers `chunks` and ends. -/
theorem downloadRevisionLoop_streamOf (env : DownloadEnv)
    (hw : ∀ i, env.writeFails i = none)
    (chunks : List DataChunk) (hdata : ∀ c ∈ chunks, c.Length ≤ c.Data.length)
    (hlen : ∀ c ∈ chunks, c.Data.length < 2 ^ 63) :
    ∀ (writes : Nat) (content : List UInt8),
      downloadRevisionLoop env (streamOf chunks) writes content =
        (.ok, content ++ (chunks.map fun c => c.Data.take c.Length).flatten) := by
  induction chunks with
  | nil =>
    intro writes content
    simp [streamOf, downloadRevisionLoop]
  | cons c cs ih =>
    intro writes content
    have ih' := ih (fun c' hc' => hdata c' (List.mem_cons_of_mem _ hc'))
      (fun c' hc' => hlen c' (List.mem_cons_of_mem _ hc'))
    have hd := hdata c (List.mem_cons_self _ _)
    have hl := hlen c (List.mem_cons_self _ _)
    rw [streamOf_cons, downloadRevisionLoop]
    by_cases h0 : 0 < c.Length
    · simp only [h0, if_true, hw, copyN_of_le c.Data c.Length h0 hd hl]
      simp [ih']
    · have hz : c.Length = 0 := by omega
      simp [h0, hz, ih']

/-- C12: for a stream that delivers a finite sequence of chunks, each with at least
`Length` bytes of `Data`, and then ends, when the local file opens and no write fails,
`download` and `downloadRevision` both return `nil` and leave in the local file the
concatenation, in delivery order, of the first `Length` bytes of each chunk's `Data`; so
both write the same content, and a chunk with `Length = 0` changes nothing: the content
is that of the stream without it. (The length of a Go slice is an `int`, hence below
`2 ^ 63`.) -/
theorem download_commands_write_concatenation (env : DownloadEnv)
    (path revKey localFile : String) (rest rest' : List String) (chunks : List DataChunk)
    (hp : path ≠ "") (hk : revKey ≠ "") (hl : localFile ≠ "")
    (hopen : env.openFile localFile = true) (hc : env.storageClient = true)
    (hrf : env.readFile path = some (streamOf chunks))
    (hrr : env.readRevision path revKey = some (streamOf chunks))
    (hdata : ∀ c ∈ chunks, c.Length ≤ c.Data.length)
    (hlen : ∀ c ∈ chunks, c.Data.length < 2 ^ 63)
    (hw : ∀ i, env.writeFails i = none) :
    download env (path :: localFile :: rest) =
      (.ok, some (chunks.map fun c => c.Data.take c.Length).flatten) ∧
    downloadRevision env (path :: revKey :: localFile :: rest') =
      (.ok, some (chunks.map fun c => c.Data.take c.Length).flatten) ∧
    (download env (path :: localFile :: rest)).2 =
      (downloadRevision env (path :: revKey :: localFile :: rest')).2 ∧
    (∀ pre c post, chunks = pre ++ c :: post → c.Length = 0 →
      (download env (path :: localFile :: rest)).2 =
        some ((pre ++ post).map fun c => c.Data.take c.Length).flatten) := by
  have hd : download env (path :: localFile :: rest) =
      (.ok, some (chunks.map fun c => c.Data.take c.Length).flatten) := by
    simp only [download, if_neg hp, if_neg hl, hopen, hc, hrf,
      downloadLoop_streamOf env hw chunks hdata hlen 0 []]
    simp
  have hr : downloadRevision env (path :: revKey :: localFile :: rest') =
      (.ok, some (chunks.map fun c => c.Data.take c.Length).flatten) := by
    simp only [downloadRevision, if_neg hp, if_neg hk, if_neg hl, hopen, hc, hrr,
      downloadRevisionLoop_streamOf env hw chunks hdata hlen 0 []]
    simp
  refine ⟨hd, hr, by rw [hd, hr], ?_⟩
  intro pre c post hch hz
  rw [hd, hch]
  simp [hz]

/-- C12 at a stream of three chunks, the second of `Length` 0 and the third with three
bytes of `Data` for `Length` 1. -/
theorem download_commands_write_concatenation_witness :
    envDownload.readFile "/docs/a.txt" = some (streamOf chunksThree) ∧
    envDownload.readRevision "/docs/a.txt" "rev-7" = some (streamOf chunksThree) ∧
    (∀ c ∈ chunksThree, c.Length ≤ c.Data.length) ∧
    download envDownload ["/docs/a.txt", "a.txt"] = (.ok, some [104, 105, 33]) ∧
    downloadRevision envDownload ["/docs/a.txt", "rev-7", "a.txt"] =
      (.ok, some [104, 105, 33]) :=
  have h := download_commands_write_concatenation envDownload "/docs/a.txt" "rev-7" "a.txt"
    [] [] chunksThree (by decide) (by decide) (by decide) rfl rfl rfl rfl
    (by decide) (by decide) (fun _ => rfl)
  ⟨rfl, rfl, by decide, h.1, h.2.1⟩

end Reva
